import Mathlib

/-! # mtop: the sampling and metrics-derivation core

A shallow embedding of `src/Core/system_info.cpp` (class `SystemInfo`) and of the memory
percent of `src/Core/main.cpp` (`Display::printSystemStats`), together with the statements
proved about them.

Modelling conventions

* `uint64_t` values are natural numbers; every `+`, `-`, `*` the source performs on them is
  written with an explicit reduction modulo `2 ^ 64` (`add64`, `sub64`, `mul64`).
* `double` values are rationals: the arithmetic of the source is kept, rounding is not modelled.
  Where the source divides without a guard, the quotient is a `DoubleValue`, which may be
  infinite or not a number.
* `std::string` is `String`; character-level code works on the list of its characters.
* A text file is the sequence of lines `std::getline` yields, or `none` when it cannot be opened.
* A C++ exception is the value `none` (or the constructor `thrown`) of the function that raises it.
* `std::sort` is library code, modelled by an insertion sort (`stdSort`). The order it gives to
  elements the comparator leaves equivalent is the model's own: statements about a sorted list
  of any length either do not depend on that order or are about keys that are pairwise distinct.
-/

namespace Mtop

/-! ## Machine arithmetic -/

/-- The modulus of `uint64_t` arithmetic, `2 ^ 64`. -/
def U64_MOD : Nat := 18446744073709551616

/-- Addition of two `uint64_t` values. -/
def add64 (a b : Nat) : Nat := (a + b) % U64_MOD

/-- Subtraction of two `uint64_t` values: it wraps around when `a < b`. -/
def sub64 (a b : Nat) : Nat := (a % U64_MOD + (U64_MOD - b % U64_MOD)) % U64_MOD

/-- Multiplication of two `uint64_t` values. -/
def mul64 (a b : Nat) : Nat := (a * b) % U64_MOD

/-- The largest `int`. -/
def INT_MAX : Int := 2147483647

/-- The smallest `int`. -/
def INT_MIN : Int := -2147483648

/-! ## Characters, `std::istringstream` extraction and the `std::sto*` conversions -/

/-- The `isspace` test of the C locale. -/
def isspace (c : Char) : Bool :=
  c.toNat = 32 || (9 ≤ c.toNat && c.toNat ≤ 13)

/-- The `isdigit` test. -/
def isdigit (c : Char) : Bool :=
  48 ≤ c.toNat && c.toNat ≤ 57

/-- The value of a decimal digit. -/
def digitVal (c : Char) : Nat := c.toNat - 48

/-- Leading whitespace is skipped, as every formatted extraction does first. -/
def skipWs : List Char → List Char
  | [] => []
  | c :: cs => if isspace c then skipWs cs else c :: cs

/-- The longest whitespace-free prefix and what follows it. -/
def takeWord : List Char → List Char × List Char
  | [] => ([], [])
  | c :: cs =>
    if isspace c then ([], c :: cs)
    else ((c :: (takeWord cs).1), (takeWord cs).2)

/-- The longest prefix of decimal digits and what follows it. -/
def takeDigits : List Char → List Char × List Char
  | [] => ([], [])
  | c :: cs =>
    if isdigit c then ((c :: (takeDigits cs).1), (takeDigits cs).2)
    else ([], c :: cs)

/-- The number a digit string denotes in base ten. -/
def digitsToNat (ds : List Char) : Nat :=
  ds.foldl (fun n c => 10 * n + digitVal c) 0

/-- An optional sign is read: `(negative, rest)`. -/
def takeSign : List Char → Bool × List Char
  | [] => (false, [])
  | c :: cs =>
    if c = '-' then (true, cs)
    else if c = '+' then (false, cs)
    else (false, c :: cs)

/-- The extraction `iss >> word` into a `std::string`: the next whitespace-delimited word and the
rest of the stream, `none` when the stream holds no further word. -/
def extractString (s : List Char) : Option (List Char × List Char) :=
  let w := takeWord (skipWs s)
  if w.1 = [] then none else some w

/-- The extraction `iss >> value` into a `uint64_t`: whitespace, an optional sign, decimal digits.
It fails without a digit and on a magnitude that does not fit; a minus sign negates modulo
`2 ^ 64`. -/
def extractU64 (s : List Char) : Option (Nat × List Char) :=
  let sg := takeSign (skipWs s)
  let d := takeDigits sg.2
  if d.1 = [] then none
  else if U64_MOD ≤ digitsToNat d.1 then none
  else some ((if sg.1 then sub64 0 (digitsToNat d.1) else digitsToNat d.1), d.2)

/-- The value an `int` holds after `iss >> value`: the number read, `0` when no digit is there,
and the nearest bound when the number does not fit. -/
def extractIntValue (s : List Char) : Int :=
  let sg := takeSign (skipWs s)
  let d := takeDigits sg.2
  if d.1 = [] then 0
  else
    let v : Int := if sg.1 then -(digitsToNat d.1 : Int) else (digitsToNat d.1 : Int)
    if INT_MAX < v then INT_MAX else if v < INT_MIN then INT_MIN else v

/-- The loop `while (iss >> field) fields.push_back(field)` with a fuel bound: the words of the
text, in order. -/
def readFieldsFuel : Nat → List Char → List (List Char)
  | 0, _ => []
  | fuel + 1, s =>
    match extractString s with
    | none => []
    | some (w, rest) => w :: readFieldsFuel fuel rest

/-- The loop `while (iss >> field) fields.push_back(field)`: every word takes at least one
character, so the length of the text is fuel enough. -/
def readFields (s : List Char) : List (List Char) :=
  readFieldsFuel (s.length + 1) s

/-- The conversion `std::stoi`: whitespace, an optional sign, decimal digits, anything after them
ignored. `none` stands for `std::invalid_argument` (no digit) and `std::out_of_range`. -/
def stoi (s : List Char) : Option Int :=
  let sg := takeSign (skipWs s)
  let d := takeDigits sg.2
  if d.1 = [] then none
  else
    let v : Int := if sg.1 then -(digitsToNat d.1 : Int) else (digitsToNat d.1 : Int)
    if INT_MAX < v then none else if v < INT_MIN then none else some v

/-- The conversion `std::stoull`: as `stoi`, with the range of `unsigned long long`; a minus sign
negates modulo `2 ^ 64`. -/
def stoull (s : List Char) : Option Nat :=
  let sg := takeSign (skipWs s)
  let d := takeDigits sg.2
  if d.1 = [] then none
  else if U64_MOD ≤ digitsToNat d.1 then none
  else some (if sg.1 then sub64 0 (digitsToNat d.1) else digitsToNat d.1)

/-- The search `s.find(c)`: the first position of the character. -/
def findChar (c : Char) : List Char → Option Nat
  | [] => none
  | x :: xs => if x = c then some 0 else (findChar c xs).map (· + 1)

/-- The search `s.rfind(c)`: the last position of the character. -/
def rfindChar (c : Char) : List Char → Option Nat
  | [] => none
  | x :: xs =>
    match rfindChar c xs with
    | some i => some (i + 1)
    | none => if x = c then some 0 else none

/-- The call `s.substr(pos, count)` for `pos ≤ s.size()`. -/
def substr (s : List Char) (pos count : Nat) : List Char :=
  (s.drop pos).take count

/-- The search `hay.find(needle)` for a string needle: the first position at which the needle
starts, `none` for `std::string::npos`. -/
def findStr (needle : List Char) : List Char → Option Nat
  | [] => if needle = [] then some 0 else none
  | x :: xs =>
    if needle.isPrefixOf (x :: xs) then some 0
    else (findStr needle xs).map (· + 1)

/-! ## Data model (`system_info.hpp`) -/

/-- The struct `ProcessInfo`. -/
structure ProcessInfo where
  pid : Int
  name : String
  state : String
  cpu_percent : ℚ
  memory_kb : Nat
  user : String
  uid : Int
  is_kernel_thread : Bool
  utime : Nat
  stime : Nat
  start_time : Nat
deriving DecidableEq

/-- The struct `NetworkStats`. -/
structure NetworkStats where
  interface : String
  rx_bytes : Nat
  tx_bytes : Nat
  rx_packets : Nat
  tx_packets : Nat
deriving DecidableEq

/-- The struct `SystemStats`. -/
structure SystemStats where
  cpu_percent : ℚ
  total_memory_kb : Nat
  used_memory_kb : Nat
  free_memory_kb : Nat
  load_avg : ℚ × ℚ × ℚ
  process_count : Int
  processes : List ProcessInfo
  network_interfaces : List NetworkStats
deriving DecidableEq

/-- Modelled from the spec: `parser.hpp`, which declares `MtopConfig::SortBy`, is not among the
sources; these are the four sort keys `sortProcesses` switches over. -/
inductive SortBy where
  | MEMORY
  | CPU
  | PID
  | NAME
deriving DecidableEq

/-- Modelled from the spec: `parser.hpp`, which declares `MtopConfig`, is not among the sources;
these are the members `system_info.cpp` reads, the maximum row count being a count. -/
structure MtopConfig where
  max_processes : Nat
  sort_by : SortBy
  reverse_sort : Bool
  show_kernel_threads : Bool
  hide_processes : List String
  show_only_users : List String
deriving DecidableEq

/-- The class `SystemInfo`: its data members, and `cpu_cores`, the function-local static of
`calculateProcessCpuPercent` that caches `sysconf(_SC_NPROCESSORS_ONLN)`. The
`std::unordered_map` is an association list searched by key. -/
structure SystemInfo where
  stats : SystemStats
  config : MtopConfig
  prev_total_time : Nat
  prev_idle_time : Nat
  prev_processes : List (Int × ProcessInfo)
  cpu_cores : Int

/-- One entry of the directory `/proc` with the two files read below it: `stat` is the first
line of `/proc/<filename>/stat` (`none` when the file cannot be opened), `status` the lines of
`/proc/<filename>/status` (none when it cannot be opened). -/
structure ProcEntry where
  is_directory : Bool
  filename : String
  stat : Option String
  status : List String

/-- What one update cycle reads from the operating system. `loadavg` holds the three numbers of
`/proc/loadavg` when the file opens and all three are read (their parsing is not modelled);
`getpwuid` is the password database. -/
structure ProcFS where
  stat : Option (List String)
  meminfo : Option (List String)
  loadavg : Option (ℚ × ℚ × ℚ)
  net_dev : Option (List String)
  proc : List ProcEntry
  getpwuid : Int → Option String

/-- What the body of the `/proc` loop does with one entry. -/
inductive EntryResult where
  | skipped
  | pushed (proc : ProcessInfo)
  | thrown

/-! ## `SystemInfo`: system CPU -/

/-- The function `SystemInfo::calculateCpuPercent`. -/
def calculateCpuPercent (s : SystemInfo) (total_time idle_time : Nat) : ℚ :=
  if s.prev_total_time = 0 then 0
  else
    let total_diff := sub64 total_time s.prev_total_time
    let idle_diff := sub64 idle_time s.prev_idle_time
    if total_diff = 0 then 0
    else 100 * (1 - (idle_diff : ℚ) / (total_diff : ℚ))

/-- The extraction `iss >> cpu_label >> user >> ... >> steal` of `readCpuStats`: the eight
counters, `none` when one of the nine extractions fails. -/
def parseCpuLine (line : List Char) : Option (List Nat) := do
  let (_, r0) ← extractString line
  let (user, r1) ← extractU64 r0
  let (nice, r2) ← extractU64 r1
  let (system, r3) ← extractU64 r2
  let (idle, r4) ← extractU64 r3
  let (iowait, r5) ← extractU64 r4
  let (irq, r6) ← extractU64 r5
  let (softirq, r7) ← extractU64 r6
  let (steal, _) ← extractU64 r7
  pure [user, nice, system, idle, iowait, irq, softirq, steal]

/-- The assignment `stats.cpu_percent = v`. -/
def setCpuPercent (s : SystemInfo) (v : ℚ) : SystemInfo :=
  { s with stats := { s.stats with cpu_percent := v } }

/-- The function `SystemInfo::readCpuStats`. -/
def readCpuStats (fs : ProcFS) (s : SystemInfo) : SystemInfo :=
  match fs.stat with
  | none => setCpuPercent s 0
  | some [] => setCpuPercent s 0
  | some (line :: _) =>
    match parseCpuLine line.data with
    | some [user, nice, system, idle, iowait, irq, softirq, steal] =>
      let total_time :=
        add64 (add64 (add64 (add64 (add64 (add64 (add64 user nice) system) idle) iowait) irq)
          softirq) steal
      let idle_time := add64 idle iowait
      { setCpuPercent s (calculateCpuPercent s total_time idle_time) with
        prev_total_time := total_time
        prev_idle_time := idle_time }
    | _ => setCpuPercent s 0

/-! ## `SystemInfo`: memory, load average, network -/

/-- The body of the `while (std::getline(file, line))` loop of `readMemoryStats`, on the triple
`(stats.total_memory_kb, stats.free_memory_kb, available_kb)`. -/
def memoryLine (acc : Nat × Nat × Nat) (line : String) : Nat × Nat × Nat :=
  match extractString line.data with
  | none => acc
  | some (key, r) =>
    match extractU64 r with
    | none => acc
    | some (value, _) =>
      if key = "MemTotal:".data then (value, acc.2.1, acc.2.2)
      else if key = "MemAvailable:".data then (acc.1, acc.2.1, value)
      else if key = "MemFree:".data && acc.2.2 == 0 then (acc.1, value, acc.2.2)
      else acc

/-- The function `SystemInfo::readMemoryStats`. -/
def readMemoryStats (fs : ProcFS) (s : SystemInfo) : SystemInfo :=
  match fs.meminfo with
  | none =>
    { s with stats := { s.stats with total_memory_kb := 0, used_memory_kb := 0,
                                     free_memory_kb := 0 } }
  | some lines =>
    let acc := lines.foldl memoryLine (0, 0, 0)
    let total := acc.1
    let free := if acc.2.2 > 0 then acc.2.2 else acc.2.1
    let used := if total > 0 then sub64 total free else 0
    { s with stats := { s.stats with total_memory_kb := total, used_memory_kb := used,
                                     free_memory_kb := free } }

/-- The function `SystemInfo::readLoadAverage`. -/
def readLoadAverage (fs : ProcFS) (s : SystemInfo) : SystemInfo :=
  match fs.loadavg with
  | some l => { s with stats := { s.stats with load_avg := l } }
  | none => { s with stats := { s.stats with load_avg := (0, 0, 0) } }

/-- The loop `for (int i = 0; i < 16 && iss >> values[i]; ++i)`: the values read, at most
`n` of them. -/
def readValues : Nat → List Char → List Nat
  | 0, _ => []
  | n + 1, s =>
    match extractU64 s with
    | none => []
    | some (v, rest) => v :: readValues n rest

/-- The removal of one trailing colon from an interface name. -/
def stripColon (w : List Char) : List Char :=
  if w.getLast? = some ':' then w.dropLast else w

/-- The body of the line loop of `readNetworkStats`: the interface the line adds, if any. -/
def networkLine (line : String) : Option NetworkStats :=
  match extractString line.data with
  | none => none
  | some (w, rest) =>
    let interface := stripColon w
    if interface = [] || interface = "lo".data then none
    else
      let values := readValues 16 rest
      if 10 ≤ values.length then
        some { interface := String.mk interface
               rx_bytes := values.getD 0 0
               rx_packets := values.getD 1 0
               tx_bytes := values.getD 8 0
               tx_packets := values.getD 9 0 }
      else none

/-- The function `SystemInfo::readNetworkStats`. -/
def readNetworkStats (fs : ProcFS) (s : SystemInfo) : SystemInfo :=
  match fs.net_dev with
  | some (_ :: _ :: lines) =>
    { s with stats := { s.stats with network_interfaces := lines.filterMap networkLine } }
  | _ => { s with stats := { s.stats with network_interfaces := [] } }

/-! ## `SystemInfo`: the process table -/

/-- The `cpu_cores` of `calculateProcessCpuPercent` after `if (cpu_cores <= 0) cpu_cores = 1`. -/
def cpuCores (s : SystemInfo) : Int :=
  if s.cpu_cores ≤ 0 then 1 else s.cpu_cores

/-- The function `SystemInfo::calculateProcessCpuPercent`. -/
def calculateProcessCpuPercent (s : SystemInfo) (current previous : ProcessInfo) : ℚ :=
  let total_time_diff :=
    sub64 (add64 current.utime current.stime) (add64 previous.utime previous.stime)
  let system_time_diff := sub64 s.prev_total_time 0
  if system_time_diff = 0 then 0
  else
    let cpu_percent :=
      (100 * (total_time_diff : ℚ) * (cpuCores s : ℚ)) / (system_time_diff : ℚ)
    min cpu_percent (100 * (cpuCores s : ℚ))

/-- The function `SystemInfo::getUserName`. -/
def getUserName (fs : ProcFS) (uid : Int) : String :=
  match fs.getpwuid uid with
  | some pw_name => pw_name
  | none => toString uid

/-- The loop over `/proc/<pid>/status` of `readProcesses`: the `proc.uid` it leaves, read from
the first line that starts with `Uid:`, and `0` without such a line. -/
def readUid : List String → Int
  | [] => 0
  | status_line :: rest =>
    if status_line.data.take 4 = "Uid:".data then
      match extractString status_line.data with
      | some (_, r) => extractIntValue r
      | none => 0
    else readUid rest

/-- The lookup `prev_processes.find(pid)`. -/
def mapFind (m : List (Int × ProcessInfo)) (pid : Int) : Option ProcessInfo :=
  (m.find? (fun e => e.1 == pid)).map (fun e => e.2)

/-- The assignment `prev_processes[pid] = proc`. -/
def mapAssign (m : List (Int × ProcessInfo)) (pid : Int) (proc : ProcessInfo) :
    List (Int × ProcessInfo) :=
  if m.any (fun e => e.1 == pid) then m.map (fun e => if e.1 == pid then (pid, proc) else e)
  else m ++ [(pid, proc)]

/-- The end of the `/proc` loop body of `readProcesses`: the lookup of `proc.pid` in
`prev_processes` and the assignment of `proc.cpu_percent`. -/
def assignCpuPercent (s : SystemInfo) (proc : ProcessInfo) : ProcessInfo :=
  match mapFind s.prev_processes proc.pid with
  | some previous => { proc with cpu_percent := calculateProcessCpuPercent s proc previous }
  | none => { proc with cpu_percent := 0 }

/-- The part of the `/proc` loop body of `readProcesses` that follows the test
`fields.size() >= 22`, for the record of process `pid` named `name`. The name of an empty
string has neither a first nor a last character to compare. -/
def parseStatFields (s : SystemInfo) (fs : ProcFS) (e : ProcEntry) (pid : Int)
    (name : List Char) (fields : List (List Char)) : EntryResult :=
  match stoi (fields.getD 1 []) with
  | none => .thrown
  | some ppid =>
    match stoull (fields.getD 11 []) with
    | none => .thrown
    | some utime =>
      match stoull (fields.getD 12 []) with
      | none => .thrown
      | some stime =>
        match stoull (fields.getD 19 []) with
        | none => .thrown
        | some start_time =>
          match stoull (fields.getD 21 []) with
          | none => .thrown
          | some rss =>
            let uid := readUid e.status
            let proc : ProcessInfo :=
              { pid := pid
                name := String.mk name
                state := String.mk (fields.getD 0 [])
                cpu_percent := 0
                memory_kb := mul64 rss 4
                user := getUserName fs uid
                uid := uid
                is_kernel_thread :=
                  ppid == 2 || (name.head? == some '[' && name.getLast? == some ']')
                utime := utime
                stime := stime
                start_time := start_time }
            .pushed (assignCpuPercent s proc)

/-- The body of the `/proc` loop of `readProcesses` for one directory entry; `size_t` is taken
to be 64 bits wide. -/
def readProcessEntry (s : SystemInfo) (fs : ProcFS) (e : ProcEntry) : EntryResult :=
  if !e.is_directory then .skipped
  else if !(e.filename.data.all isdigit) then .skipped
  else
    match stoi e.filename.data with
    | none => .thrown
    | some pid =>
      match e.stat with
      | none => .skipped
      | some stat_line =>
        match findChar '(' stat_line.data, rfindChar ')' stat_line.data with
        | some first_paren, some last_paren =>
          let name :=
            substr stat_line.data (first_paren + 1) (sub64 (sub64 last_paren first_paren) 1)
          let remaining := stat_line.data.drop (last_paren + 1)
          let fields := readFields remaining
          if 22 ≤ fields.length then parseStatFields s fs e pid name fields
          else .skipped
        | _, _ => .skipped

/-- The `/proc` loop of `readProcesses` inside its `try`: `acc` is
`(stats.processes, stats.process_count)`; an exception ends the loop and keeps what was
pushed before it. -/
def readProcessesLoop (s : SystemInfo) (fs : ProcFS) :
    List ProcEntry → List ProcessInfo × Int → List ProcessInfo × Int
  | [], acc => acc
  | e :: es, acc =>
    match readProcessEntry s fs e with
    | .skipped => readProcessesLoop s fs es acc
    | .pushed proc => readProcessesLoop s fs es (acc.1 ++ [proc], acc.2 + 1)
    | .thrown => acc

/-- The function `SystemInfo::readProcesses`. -/
def readProcesses (fs : ProcFS) (s : SystemInfo) : SystemInfo :=
  let r := readProcessesLoop s fs fs.proc ([], 0)
  { s with
    stats := { s.stats with processes := r.1, process_count := r.2 }
    prev_processes := r.1.foldl (fun m proc => mapAssign m proc.pid proc) [] }

/-! ## `SystemInfo`: filtering and sorting -/

/-- The function `SystemInfo::shouldShowProcess`. -/
def shouldShowProcess (config : MtopConfig) (proc : ProcessInfo) : Bool :=
  if proc.is_kernel_thread && !config.show_kernel_threads then false
  else if config.hide_processes.any (fun hidden => (findStr hidden.data proc.name.data).isSome)
  then false
  else if !config.show_only_users.isEmpty then
    (if config.show_only_users.any (fun user => proc.user == user) then true else false)
  else true

/-- The function `SystemInfo::applyProcessFilters`. -/
def applyProcessFilters (s : SystemInfo) : SystemInfo :=
  let kept := s.stats.processes.filter (fun proc => shouldShowProcess s.config proc)
  let limited := if kept.length > s.config.max_processes then kept.take s.config.max_processes
                 else kept
  { s with stats := { s.stats with processes := limited } }

/-- The `result` of the comparator of `sortProcesses` after its `switch (config.sort_by)`. -/
def sortResult (sort_by : SortBy) (a b : ProcessInfo) : Bool :=
  match sort_by with
  | .MEMORY => decide (a.memory_kb > b.memory_kb)
  | .CPU => decide (a.cpu_percent > b.cpu_percent)
  | .PID => decide (a.pid < b.pid)
  | .NAME => decide (a.name < b.name)

/-- The comparator `sortProcesses` hands to `std::sort`. -/
def sortCompare (config : MtopConfig) (a b : ProcessInfo) : Bool :=
  if config.reverse_sort then !(sortResult config.sort_by a b) else sortResult config.sort_by a b

/-- One insertion of the insertion sort, on the sorted prefix held back to front: `val` moves
towards the front past every element it compares before. -/
def linearInsert {α : Type} (comp : α → α → Bool) (val : α) : List α → List α
  | [] => [val]
  | y :: ys => if comp val y then y :: linearInsert comp val ys else val :: y :: ys

/-- The insertion sort loop: `racc` is the sorted prefix, back to front. -/
def insertionLoop {α : Type} (comp : α → α → Bool) : List α → List α → List α
  | [], racc => racc
  | x :: xs, racc => insertionLoop comp xs (linearInsert comp x racc)

/-- The library routine `std::sort(first, last, comp)`, whose code is not part of the sources.
The model is an insertion sort driven by `comp`, which is what the library runs on a range of at
most 16 elements. On a longer range the library partitions the range first. Where the keys are
pairwise distinct the list it leaves is the list of the model, the one ordered permutation
(`stdSort_unique`, `sortProcesses_pid_order_unique`). Elements with equal keys may come out in
another order on a longer range, and with equal keys and a comparator that is not a strict weak
ordering the library call is undefined there. -/
def stdSort {α : Type} (comp : α → α → Bool) (l : List α) : List α :=
  (insertionLoop comp l []).reverse

/-- The function `SystemInfo::sortProcesses`. -/
def sortProcesses (s : SystemInfo) : SystemInfo :=
  { s with stats := { s.stats with processes := stdSort (sortCompare s.config) s.stats.processes } }

/-! ## `SystemInfo`: the update cycle -/

/-- The function `SystemInfo::updateStats`. -/
def updateStats (fs : ProcFS) (s : SystemInfo) : SystemInfo :=
  sortProcesses (applyProcessFilters (readProcesses fs (readNetworkStats fs
    (readLoadAverage fs (readMemoryStats fs (readCpuStats fs s))))))

/-- The object before the body of the constructor runs: the two baselines are `0`, the map is
empty; the members of `stats`, all assigned by the first cycle, start at zero. -/
def initial (config : MtopConfig) (cpu_cores : Int) : SystemInfo :=
  { stats := { cpu_percent := 0, total_memory_kb := 0, used_memory_kb := 0, free_memory_kb := 0,
               load_avg := (0, 0, 0), process_count := 0, processes := [],
               network_interfaces := [] }
    config := config
    prev_total_time := 0
    prev_idle_time := 0
    prev_processes := []
    cpu_cores := cpu_cores }

/-- The constructor `SystemInfo::SystemInfo`: it runs the first update cycle. -/
def construct (fs : ProcFS) (config : MtopConfig) (cpu_cores : Int) : SystemInfo :=
  updateStats fs (initial config cpu_cores)

/-- The function `SystemInfo::getStats`. -/
def getStats (s : SystemInfo) : SystemStats := s.stats

/-- The function `SystemInfo::updateConfig`. -/
def updateConfig (s : SystemInfo) (new_config : MtopConfig) : SystemInfo :=
  { s with config := new_config }

/-! ## `Display`: the memory percent (`main.cpp`) -/

/-- The value of a `double` expression in which a division by zero may occur. -/
inductive DoubleValue where
  | finite (value : ℚ)
  | infinite (negative : Bool)
  | nan
deriving DecidableEq

/-- The division `a / b` of two `double` values: a nonzero value over zero is infinite and
zero over zero is not a number; no operand here is a negative zero. -/
def doubleDiv (a b : ℚ) : DoubleValue :=
  if b = 0 then (if a = 0 then .nan else .infinite (decide (a < 0)))
  else .finite (a / b)

/-- The product of a `double` value and a positive constant. -/
def doubleScale (x : DoubleValue) (c : ℚ) : DoubleValue :=
  match x with
  | .finite value => .finite (value * c)
  | .infinite negative => .infinite negative
  | .nan => .nan

/-- The local `mem_percent` of `Display::printSystemStats` (`main.cpp`). -/
def mem_percent (stats : SystemStats) : DoubleValue :=
  doubleScale (doubleDiv (stats.used_memory_kb : ℚ) (stats.total_memory_kb : ℚ)) 100

/-! ## The specification's formulas -/

/-- The system CPU percent as the specification words it, `100 × (1 − Δidle / Δtotal)` over the
exact differences of the counters, and `0` when `Δtotal` is `0`. -/
def specCpuPercent (prev_total prev_idle total idle : Nat) : ℚ :=
  if total = prev_total then 0
  else 100 * (1 - ((idle : ℚ) - (prev_idle : ℚ)) / ((total : ℚ) - (prev_total : ℚ)))

/-- The published process list as the specification words it: the parsed list is filtered,
ordered by the configured sort key, and then cut to the maximum row count. -/
def specPublished (config : MtopConfig) (parsed : List ProcessInfo) : List ProcessInfo :=
  (stdSort (sortCompare config) (parsed.filter (fun proc => shouldShowProcess config proc))).take
    config.max_processes

/-- The process list `readProcesses` builds within the cycle `updateStats fs s`, before it is
filtered and sorted. -/
def parsedInCycle (fs : ProcFS) (s : SystemInfo) : List ProcessInfo :=
  (readProcesses fs (readNetworkStats fs (readLoadAverage fs
    (readMemoryStats fs (readCpuStats fs s))))).stats.processes

/-- The per-process CPU percent as the specification words it, before clamping:
`100 × ΔprocessTicks × coreCount / Δtotal`, with `Δtotal` the difference of the system-wide
totals of the two cycles. -/
def specProcessCpuPercent (current_ticks previous_ticks : Nat) (coreCount : Int)
    (prev_total total : Nat) : ℚ :=
  100 * ((current_ticks : ℚ) - (previous_ticks : ℚ)) * (coreCount : ℚ)
    / ((total : ℚ) - (prev_total : ℚ))

/-- The visibility predicate as the specification words it: not a kernel thread or kernel
threads are shown; no hide string occurs in the name, as a contiguous run of characters at any
position; the allow-list of users is empty or holds the owning user. -/
def specVisible (config : MtopConfig) (proc : ProcessInfo) : Prop :=
  (proc.is_kernel_thread = false ∨ config.show_kernel_threads = true) ∧
  (∀ hidden ∈ config.hide_processes, ¬ hidden.data <:+: proc.name.data) ∧
  (config.show_only_users = [] ∨ proc.user ∈ config.show_only_users)

instance specVisibleDecidable (config : MtopConfig) (proc : ProcessInfo) :
    Decidable (specVisible config proc) :=
  inferInstanceAs (Decidable
    ((proc.is_kernel_thread = false ∨ config.show_kernel_threads = true) ∧
     (∀ hidden ∈ config.hide_processes, ¬ hidden.data <:+: proc.name.data) ∧
     (config.show_only_users = [] ∨ proc.user ∈ config.show_only_users)))

/-- The post-name tokens of a per-process stat record: for a directory of `/proc` with an
all-digit name whose stat file opens and holds both parentheses, the whitespace-separated tokens
after the last `)`. An entry without them is no stat record. -/
def statRecordTokens (e : ProcEntry) : Option (List (List Char)) :=
  if e.is_directory && e.filename.data.all isdigit then
    match e.stat with
    | none => none
    | some stat_line =>
      match findChar '(' stat_line.data, rfindChar ')' stat_line.data with
      | some _, some last_paren => some (readFields (stat_line.data.drop (last_paren + 1)))
      | _, _ => none
  else none

/-- The entry is a per-process stat record. -/
def isStatRecord (e : ProcEntry) : Bool :=
  (statRecordTokens e).isSome

/-- The entry is a stat record with fewer than 22 post-name tokens. -/
def isShortRecord (e : ProcEntry) : Bool :=
  match statRecordTokens e with
  | some tokens => decide (tokens.length < 22)
  | none => false

/-- The entry is a stat record with at least 22 post-name tokens. -/
def isFullRecord (e : ProcEntry) : Bool :=
  match statRecordTokens e with
  | some tokens => decide (22 ≤ tokens.length)
  | none => false

/-- The numeric tokens of the entry all parse: the all-digit name of a directory, read by
`std::stoi`, fits an `int`, and in a record with at least 22 tokens, token 1 converts with
`std::stoi` and tokens 11, 12, 19 and 21 convert with `std::stoull`. -/
def numericTokensParse (e : ProcEntry) : Bool :=
  (!(e.is_directory && e.filename.data.all isdigit) || (stoi e.filename.data).isSome) &&
  (match statRecordTokens e with
   | none => true
   | some tokens =>
     !(decide (22 ≤ tokens.length)) ||
       ((stoi (tokens.getD 1 [])).isSome && (stoull (tokens.getD 11 [])).isSome &&
        (stoull (tokens.getD 12 [])).isSome && (stoull (tokens.getD 19 [])).isSome &&
        (stoull (tokens.getD 21 [])).isSome))

/-- The text is empty or its first character satisfies `p`. -/
def emptyOrHead (p : Char → Bool) : List Char → Bool
  | [] => true
  | c :: _ => p c

/-- A run of decimal number tokens, each written after its separator: `(separator, digits)`. -/
def numberTokens : List (List Char × List Char) → List Char
  | [] => []
  | t :: rest => t.1 ++ (t.2 ++ numberTokens rest)

/-- A number token is well formed: a separator of one or more whitespace characters, then one
or more decimal digits that denote a number below `2 ^ 64`. -/
def wellFormedToken (t : List Char × List Char) : Bool :=
  !t.1.isEmpty && t.1.all isspace && !t.2.isEmpty && t.2.all isdigit &&
    decide (digitsToNat t.2 < U64_MOD)

/-- The number a token denotes. -/
def tokenValue (t : List Char × List Char) : Nat := digitsToNat t.2

/-- The unsigned integer fields at the head of a text, as formatted extraction reads them, with
no bound on their number: every field takes at least one character, so the length of the text
is fuel enough. -/
def unsignedFields (s : List Char) : List Nat :=
  readValues (s.length + 1) s

/-- The interface a line of `/proc/net/dev` contributes, as the specification words it: the
first token with a trailing `:` stripped is the name; an empty name and `lo` are skipped; the
line counts when at least 10 unsigned integer fields follow the name, and fields 0, 1, 8 and 9
are the received bytes and packets and the transmitted bytes and packets. -/
def specNetworkLine (line : String) : Option NetworkStats :=
  match extractString line.data with
  | none => none
  | some (w, rest) =>
    if stripColon w = [] ∨ stripColon w = "lo".data then none
    else if 10 ≤ (unsignedFields rest).length then
      some { interface := String.mk (stripColon w)
             rx_bytes := (unsignedFields rest).getD 0 0
             rx_packets := (unsignedFields rest).getD 1 0
             tx_bytes := (unsignedFields rest).getD 8 0
             tx_packets := (unsignedFields rest).getD 9 0 }
    else none

/-- The entry a line of `/proc/meminfo` holds: its first word, the key, and the unsigned number
that follows it; a line without the two holds none. -/
def memoryEntry (line : String) : Option (List Char × Nat) :=
  match extractString line.data with
  | none => none
  | some (key, r) =>
    match extractU64 r with
    | none => none
    | some (value, _) => some (key, value)

/-- The entries of a meminfo text, in line order. -/
def memoryEntries (lines : List String) : List (List Char × Nat) :=
  lines.filterMap memoryEntry

/-- The number of entries with the given key. -/
def keyCount (key : List Char) (entries : List (List Char × Nat)) : Nat :=
  entries.countP (fun e => e.1 == key)

/-- The value of the given key, `0` when the key is absent. -/
def keyValue (key : List Char) (entries : List (List Char × Nat)) : Nat :=
  (entries.lookup key).getD 0

/-- The free memory as the specification words it: the `MemAvailable` value when that key is
present with a nonzero value, the `MemFree` value otherwise. -/
def specFreeMemory (entries : List (List Char × Nat)) : Nat :=
  if keyValue "MemAvailable:".data entries ≠ 0 then keyValue "MemAvailable:".data entries
  else keyValue "MemFree:".data entries

/-- The loop body of `readMemoryStats` on an entry. -/
def memoryStep (acc : Nat × Nat × Nat) (e : List Char × Nat) : Nat × Nat × Nat :=
  if e.1 = "MemTotal:".data then (e.2, acc.2.1, acc.2.2)
  else if e.1 = "MemAvailable:".data then (acc.1, acc.2.1, e.2)
  else if e.1 = "MemFree:".data && acc.2.2 == 0 then (acc.1, e.2, acc.2.2)
  else acc

/-! ## Concrete inputs -/

/-- A configuration: twenty rows, sorted by memory, nothing hidden. -/
def defaultConfig : MtopConfig :=
  { max_processes := 20, sort_by := .MEMORY, reverse_sort := false, show_kernel_threads := false,
    hide_processes := [], show_only_users := [] }

/-- An operating system that exposes nothing. -/
def emptyFS : ProcFS :=
  { stat := none, meminfo := none, loadavg := none, net_dev := none, proc := [],
    getpwuid := fun _ => none }

/-- A `SystemInfo` whose stored baseline is `(prev_total, prev_idle)`. -/
def stateWithBaseline (prev_total prev_idle : Nat) : SystemInfo :=
  { initial defaultConfig 1 with prev_total_time := prev_total, prev_idle_time := prev_idle }

/-- A `/proc/stat` whose counters are all zero. -/
def zeroCpuFS : ProcFS :=
  { emptyFS with stat := some ["cpu  0 0 0 0 0 0 0 0 0 0"] }

/-- A `/proc/stat` with total `1000` and idle + iowait `800`. -/
def firstCpuFS : ProcFS :=
  { emptyFS with stat := some ["cpu  200 0 0 500 300 0 0 0 0 0"] }

/-- A later `/proc/stat` with total `1200` and idle + iowait `700`: the iowait counter went
down from `300` to `100`. -/
def secondCpuFS : ProcFS :=
  { emptyFS with stat := some ["cpu  500 0 0 600 100 0 0 0 0 0"] }

/-- A configuration that sorts by PID, ascending, and shows at most two rows. -/
def pidTwoRowsConfig : MtopConfig :=
  { max_processes := 2, sort_by := .PID, reverse_sort := false, show_kernel_threads := false,
    hide_processes := [], show_only_users := [] }

/-- The status file of a process of user `1000`. -/
def userStatus : List String :=
  ["Name:\tdemo", "Uid:\t1000\t1000\t1000\t1000"]

/-- A `/proc` that enumerates three processes in the order `3, 1, 2`. -/
def threeProcessFS : ProcFS :=
  { emptyFS with
    proc :=
      [ { is_directory := true, filename := "3", status := userStatus
          stat := some "3 (gamma) S 1 3 3 0 -1 0 0 0 0 0 60 40 0 0 20 0 1 0 555 1000 25" },
        { is_directory := true, filename := "1", status := userStatus
          stat := some "1 (alpha) S 0 1 1 0 -1 0 0 0 0 0 10 5 0 0 20 0 1 0 1 1000 50" },
        { is_directory := true, filename := "2", status := userStatus
          stat := some "2 (beta) S 1 2 2 0 -1 0 0 0 0 0 7 3 0 0 20 0 1 0 20 1000 75" } ] }

/-- The first cycle of a two-cycle run: system total `1000`, process `3` with `60 + 40` ticks. -/
def cycleOneFS : ProcFS :=
  { firstCpuFS with
    proc :=
      [ { is_directory := true, filename := "3", status := userStatus
          stat := some "3 (gamma) S 1 3 3 0 -1 0 0 0 0 0 60 40 0 0 20 0 1 0 555 1000 25" } ] }

/-- The second cycle: system total `1200` and idle + iowait `850`, process `3` with `100 + 50`
ticks. -/
def cycleTwoFS : ProcFS :=
  { emptyFS with
    stat := some ["cpu  350 0 0 550 300 0 0 0 0 0"]
    proc :=
      [ { is_directory := true, filename := "3", status := userStatus
          stat := some "3 (gamma) S 1 3 3 0 -1 0 0 0 0 0 100 50 0 0 20 0 1 0 555 1000 25" } ] }

/-- A record with 22 tokens whose token 1, read by `std::stoi`, is not a number. -/
def malformedEntry : ProcEntry :=
  { is_directory := true, filename := "1", status := userStatus
    stat := some "1 (alpha) S x 1 1 0 -1 0 0 0 0 0 10 5 0 0 20 0 1 0 1 1000 50" }

/-- A well-formed record. -/
def wellFormedEntry : ProcEntry :=
  { is_directory := true, filename := "2", status := userStatus
    stat := some "2 (beta) S 1 2 2 0 -1 0 0 0 0 0 7 3 0 0 20 0 1 0 20 1000 75" }

/-- A `/proc` that enumerates the malformed record before the well-formed one. -/
def malformedFirstFS : ProcFS :=
  { emptyFS with proc := [malformedEntry, wellFormedEntry] }

/-- A `/proc` that enumerates the well-formed record before the malformed one. -/
def malformedLastFS : ProcFS :=
  { emptyFS with proc := [wellFormedEntry, malformedEntry] }

/-- A configuration that sorts by PID with the reverse flag on. -/
def pidReverseConfig : MtopConfig :=
  { max_processes := 20, sort_by := .PID, reverse_sort := true, show_kernel_threads := false,
    hide_processes := [], show_only_users := [] }

/-- A configuration that hides every process whose name contains `chrome`. -/
def hideChromeConfig : MtopConfig :=
  { max_processes := 20, sort_by := .MEMORY, reverse_sort := false, show_kernel_threads := false,
    hide_processes := ["chrome"], show_only_users := [] }

/-- A process of user `alice` with the given pid and name. -/
def namedProcess (pid : Int) (name : String) : ProcessInfo :=
  { pid := pid, name := name, state := "S", cpu_percent := 0, memory_kb := 0, user := "alice",
    uid := 1000, is_kernel_thread := false, utime := 0, stime := 0, start_time := 0 }

/-- A process with the given tick counters. -/
def processWithTicks (utime stime : Nat) : ProcessInfo :=
  { namedProcess 3 "gamma" with utime := utime, stime := stime }

/-- A `SystemInfo` whose `stats.processes` is the given list. -/
def stateWithProcesses (config : MtopConfig) (processes : List ProcessInfo) : SystemInfo :=
  { initial config 1 with stats := { (initial config 1).stats with processes := processes } }

/-- A `/proc` with two full records, a record of seven tokens, a plain file and a directory
whose stat file is empty. -/
def mixedFS : ProcFS :=
  { emptyFS with
    proc :=
      [ { is_directory := true, filename := "3", status := userStatus
          stat := some "3 (gamma) S 1 3 3 0 -1 0 0 0 0 0 60 40 0 0 20 0 1 0 555 1000 25" },
        { is_directory := true, filename := "7", status := userStatus
          stat := some "7 (short) S 1 7 7 0 -1 0" },
        { is_directory := false, filename := "cpuinfo", status := [], stat := none },
        { is_directory := true, filename := "9", status := [], stat := some "" },
        { is_directory := true, filename := "2", status := userStatus
          stat := some "2 (beta) S 1 2 2 0 -1 0 0 0 0 0 7 3 0 0 20 0 1 0 20 1000 75" } ] }

/-- A `/proc/stat` whose idle field is `2 ^ 64 − 1` and whose iowait field is `1`. -/
def overflowCpuFS : ProcFS :=
  { emptyFS with stat := some ["cpu 0 0 0 18446744073709551615 1 0 0 0"] }

/-- A `/proc/net/dev` with two header lines, an interface with sixteen fields, the loopback
interface, an interface with nine fields and an interface with ten fields. -/
def networkFS : ProcFS :=
  { emptyFS with
    net_dev := some
      [ "Inter-|   Receive                |  Transmit",
        " face |bytes    packets errs drop|bytes    packets errs drop",
        "  eth0: 1 2 3 4 5 6 7 8 9 10 11 12 13 14 15 16",
        "    lo: 1 2 3 4 5 6 7 8 9 10 11 12 13 14 15 16",
        " wlan0: 1 2 3 4 5 6 7 8 9",
        "  eth1: 100 20 0 0 0 0 0 0 900 80" ] }

/-- A meminfo text with the three keys in an unusual order. -/
def memoryFS : ProcFS :=
  { emptyFS with
    meminfo := some
      [ "MemFree:          100 kB", "Buffers:           50 kB", "MemAvailable:    8000 kB",
        "MemTotal:       16000 kB" ] }

/-- A meminfo text whose `MemAvailable` value exceeds its `MemTotal` value. -/
def inconsistentMemoryFS : ProcFS :=
  { emptyFS with meminfo := some ["MemTotal: 100 kB", "MemAvailable: 200 kB"] }

/-- A record whose process name holds parentheses and spaces. -/
def parenNameEntry : ProcEntry :=
  { is_directory := true, filename := "7", status := userStatus
    stat := some "7 (Web (Content) x) R 1 7 7 0 -1 0 0 0 0 0 60 40 0 0 20 0 1 0 555 1000 25 9" }

/-- A record whose resident page count is `2 ^ 62`. -/
def hugeRssEntry : ProcEntry :=
  { is_directory := true, filename := "8", status := userStatus
    stat := some
      "8 (big) S 1 8 8 0 -1 0 0 0 0 0 60 40 0 0 20 0 1 0 555 1000 4611686018427387904" }

/-- A later cycle in which pid `3` belongs to another process: it started at tick `9999`. -/
def reusedPidFS : ProcFS :=
  { emptyFS with
    stat := some ["cpu  350 0 0 550 300 0 0 0 0 0"]
    proc :=
      [ { is_directory := true, filename := "3", status := userStatus
          stat := some "3 (other) S 1 3 3 0 -1 0 0 0 0 0 100 50 0 0 20 0 1 0 9999 1000 25" } ] }

/-! ## Statements -/

/-! ### Machine arithmetic -/

theorem sub64_of_le {a b : Nat} (hba : b ≤ a) (ha : a < U64_MOD) : sub64 a b = a - b := by
  unfold sub64 U64_MOD at *
  omega

/-! ### Text extraction -/

theorem skipWs_length_le (s : List Char) : (skipWs s).length ≤ s.length := by
  induction s with
  | nil => exact Nat.le_refl _
  | cons c cs ih =>
    unfold skipWs
    split
    · exact Nat.le_succ_of_le ih
    · exact Nat.le_refl _

theorem takeWord_length (s : List Char) :
    (takeWord s).1.length + (takeWord s).2.length = s.length := by
  induction s with
  | nil => rfl
  | cons c cs ih =>
    unfold takeWord
    split
    · simp
    · simp only [List.length_cons]
      omega

/-- An extracted word takes at least one character off the stream. -/
theorem extractString_rest_lt {s w rest : List Char} (h : extractString s = some (w, rest)) :
    rest.length < s.length := by
  unfold extractString at h
  simp only at h
  split at h
  · cases h
  · rename_i hne
    injection h with h
    have hlen := takeWord_length (skipWs s)
    have hskip := skipWs_length_le s
    have hw : 0 < (takeWord (skipWs s)).1.length := List.length_pos.mpr hne
    rw [h] at hlen hw
    simp only at hlen hw
    omega

/-- Fuel beyond the length of the text does not change what the field loop reads. -/
theorem readFieldsFuel_stable :
    ∀ (n m : Nat) (s : List Char), s.length < n → s.length < m →
      readFieldsFuel n s = readFieldsFuel m s
  | 0, _, _, hn, _ => absurd hn (Nat.not_lt_zero _)
  | _ + 1, 0, _, _, hm => absurd hm (Nat.not_lt_zero _)
  | n + 1, m + 1, s, hn, hm => by
    unfold readFieldsFuel
    cases h : extractString s with
    | none => rfl
    | some p =>
      obtain ⟨w, rest⟩ := p
      have hlt := extractString_rest_lt h
      simp only
      rw [readFieldsFuel_stable n m rest (by omega) (by omega)]

/-- The field loop as the source runs it: a word is extracted and the loop goes on with the
rest of the stream, until no word is left. -/
theorem readFields_unfold (s : List Char) :
    readFields s =
      match extractString s with
      | none => []
      | some (w, rest) => w :: readFields rest := by
  unfold readFields
  rw [readFieldsFuel]
  cases h : extractString s with
  | none => rfl
  | some p =>
    obtain ⟨w, rest⟩ := p
    have hlt := extractString_rest_lt h
    simp only
    rw [readFieldsFuel_stable s.length (rest.length + 1) rest hlt (Nat.lt_succ_self _)]

/-! ### The sort -/

theorem linearInsert_perm {α : Type} (comp : α → α → Bool) (val : α) (l : List α) :
    (linearInsert comp val l).Perm (val :: l) := by
  induction l with
  | nil => exact List.Perm.refl _
  | cons y ys ih =>
    unfold linearInsert
    split
    · exact ((List.Perm.cons y ih).trans (List.Perm.swap val y ys))
    · exact List.Perm.refl _

theorem insertionLoop_perm {α : Type} (comp : α → α → Bool) (l racc : List α) :
    (insertionLoop comp l racc).Perm (l ++ racc) := by
  induction l generalizing racc with
  | nil => exact List.Perm.refl _
  | cons x xs ih =>
    unfold insertionLoop
    refine (ih _).trans ?_
    refine (List.Perm.append_left xs (linearInsert_perm comp x racc)).trans ?_
    exact List.perm_middle

theorem stdSort_perm {α : Type} (comp : α → α → Bool) (l : List α) :
    (stdSort comp l).Perm l := by
  unfold stdSort
  refine (List.reverse_perm _).trans ?_
  simpa using insertionLoop_perm comp l []

theorem linearInsert_pairwise {α : Type} (comp : α → α → Bool) (R : α → α → Prop)
    (htrans : ∀ a b c, R a b → R b c → R a c)
    (hlt : ∀ a b, comp a b = true → R a b)
    (hge : ∀ a b, comp a b = false → R b a)
    (val : α) (racc : List α) (h : racc.Pairwise (fun y z => R z y)) :
    (linearInsert comp val racc).Pairwise (fun y z => R z y) := by
  induction racc with
  | nil => simp [linearInsert]
  | cons y ys ih =>
    have hy := (List.pairwise_cons.mp h).1
    have hys := (List.pairwise_cons.mp h).2
    unfold linearInsert
    by_cases hc : comp val y = true
    · rw [if_pos hc, List.pairwise_cons]
      refine ⟨?_, ih hys⟩
      intro z hz
      rcases List.mem_cons.mp ((linearInsert_perm comp val ys).mem_iff.mp hz) with hz' | hz'
      · rw [hz']
        exact hlt _ _ hc
      · exact hy z hz'
    · rw [if_neg hc, List.pairwise_cons]
      have hyv : R y val := hge _ _ (by simpa using hc)
      refine ⟨?_, h⟩
      intro z hz
      rcases List.mem_cons.mp hz with hz' | hz'
      · rw [hz']
        exact hyv
      · exact htrans _ _ _ (hy z hz') hyv

theorem insertionLoop_pairwise {α : Type} (comp : α → α → Bool) (R : α → α → Prop)
    (htrans : ∀ a b c, R a b → R b c → R a c)
    (hlt : ∀ a b, comp a b = true → R a b)
    (hge : ∀ a b, comp a b = false → R b a)
    (l racc : List α) (h : racc.Pairwise (fun y z => R z y)) :
    (insertionLoop comp l racc).Pairwise (fun y z => R z y) := by
  induction l generalizing racc with
  | nil => exact h
  | cons x xs ih =>
    unfold insertionLoop
    exact ih _ (linearInsert_pairwise comp R htrans hlt hge x racc h)

theorem stdSort_pairwise {α : Type} (comp : α → α → Bool) (R : α → α → Prop)
    (htrans : ∀ a b c, R a b → R b c → R a c)
    (hlt : ∀ a b, comp a b = true → R a b)
    (hge : ∀ a b, comp a b = false → R b a)
    (l : List α) : (stdSort comp l).Pairwise R := by
  unfold stdSort
  rw [List.pairwise_reverse]
  exact insertionLoop_pairwise comp R htrans hlt hge l [] List.Pairwise.nil

theorem sortResult_asymm (k : SortBy) (a b : ProcessInfo) (h : sortResult k a b = true) :
    sortResult k b a = false := by
  cases k <;> simp only [sortResult, decide_eq_true_eq, decide_eq_false_iff_not, not_lt] at h ⊢
  · exact le_of_lt h
  · exact le_of_lt h
  · exact le_of_lt h
  · exact le_of_lt h

theorem sortResult_negtrans (k : SortBy) (a b c : ProcessInfo)
    (hab : sortResult k a b = false) (hbc : sortResult k b c = false) :
    sortResult k a c = false := by
  cases k <;>
    simp only [sortResult, decide_eq_false_iff_not, not_lt, gt_iff_lt] at hab hbc ⊢
  · exact le_trans hab hbc
  · exact le_trans hab hbc
  · exact le_trans hbc hab
  · exact le_trans hbc hab

/-- Where the order is determined, the model returns it: if `R` is the order `comp` sorts by, and
no two distinct elements of `l` are equivalent under it, every permutation of `l` ordered by
`R` is the list `stdSort comp l`. -/
theorem stdSort_unique {α : Type} (comp : α → α → Bool) (R : α → α → Prop)
    (htrans : ∀ a b c, R a b → R b c → R a c)
    (hlt : ∀ a b, comp a b = true → R a b)
    (hge : ∀ a b, comp a b = false → R b a)
    (l : List α) (hanti : ∀ a ∈ l, ∀ b ∈ l, R a b → R b a → a = b)
    (r : List α) (hperm : r.Perm l) (hsorted : r.Pairwise R) : r = stdSort comp l := by
  have hs : (stdSort comp l).Pairwise R := stdSort_pairwise comp R htrans hlt hge l
  have hp : r.Perm (stdSort comp l) := hperm.trans (stdSort_perm comp l).symm
  have hanti2 : ∀ a ∈ r, ∀ b ∈ r, R a b → R b a → a = b := fun a ha b hb =>
    hanti a (hperm.mem_iff.mp ha) b (hperm.mem_iff.mp hb)
  generalize stdSort comp l = t at hs hp
  clear hperm hanti
  induction r generalizing t with
  | nil => exact (List.Perm.nil_eq hp)
  | cons a r1 ih =>
    cases t with
    | nil => exact absurd hp.length_eq (by simp)
    | cons b t1 =>
      have hab : a = b := by
        have ha : a ∈ b :: t1 := hp.mem_iff.mp (List.mem_cons_self _ _)
        have hb : b ∈ a :: r1 := hp.mem_iff.mpr (List.mem_cons_self _ _)
        rcases List.mem_cons.mp ha with h | h
        · exact h
        · rcases List.mem_cons.mp hb with h2 | h2
          · exact h2.symm
          · exact hanti2 a (List.mem_cons_self _ _) b hb
              ((List.pairwise_cons.mp hsorted).1 b h2) ((List.pairwise_cons.mp hs).1 a h)
      subst hab
      rw [ih (List.pairwise_cons.mp hsorted).2
        (fun x hx y hy => hanti2 x (List.mem_cons_of_mem _ hx) y (List.mem_cons_of_mem _ hy))
        t1 (List.pairwise_cons.mp hs).2 ((List.perm_cons a).mp hp)]

/-- With the reverse flag off the comparator is a strict weak ordering, and the list
`sortProcesses` leaves is ordered by it: no row ranks before a row that precedes it. -/
theorem sortProcesses_sorted (s : SystemInfo) (hrev : s.config.reverse_sort = false) :
    (sortProcesses s).stats.processes.Pairwise
      (fun a b => sortResult s.config.sort_by b a = false) := by
  apply stdSort_pairwise (sortCompare s.config)
    (fun a b => sortResult s.config.sort_by b a = false)
  · intro a b c hab hbc
    exact sortResult_negtrans _ c b a hbc hab
  · intro a b h
    simp only [sortCompare, hrev, Bool.false_eq_true, if_false] at h
    exact sortResult_asymm _ a b h
  · intro a b h
    simpa only [sortCompare, hrev, Bool.false_eq_true, if_false] using h

/-- With sort key PID and pairwise distinct pids the sorted order is determined: every
permutation of the process list that is ordered by pid, in the direction the reverse flag
selects, is the list `sortProcesses` leaves. -/
theorem sortProcesses_pid_order_unique (s : SystemInfo) (hkey : s.config.sort_by = SortBy.PID)
    (hdistinct : (s.stats.processes.map (·.pid)).Nodup) (r : List ProcessInfo)
    (hperm : r.Perm s.stats.processes)
    (hsorted : if s.config.reverse_sort = true then r.Pairwise (fun a b => b.pid ≤ a.pid)
      else r.Pairwise (fun a b => a.pid ≤ b.pid)) :
    r = (sortProcesses s).stats.processes := by
  have hinj : ∀ a ∈ s.stats.processes, ∀ b ∈ s.stats.processes, a.pid = b.pid → a = b :=
    fun a ha b hb h => List.inj_on_of_nodup_map hdistinct ha hb h
  unfold sortProcesses
  simp only
  cases hrev : s.config.reverse_sort
  · rw [hrev] at hsorted
    simp only [Bool.false_eq_true, if_false] at hsorted
    apply stdSort_unique (sortCompare s.config) (fun a b => a.pid ≤ b.pid)
    · intro a b c hab hbc
      exact le_trans hab hbc
    · intro a b h
      simp [sortCompare, sortResult, hkey, hrev] at h
      exact le_of_lt h
    · intro a b h
      simp [sortCompare, sortResult, hkey, hrev] at h
      exact h
    · intro a ha b hb hab hba
      exact hinj a ha b hb (le_antisymm hab hba)
    · exact hperm
    · exact hsorted
  · rw [hrev] at hsorted
    simp only [if_true] at hsorted
    apply stdSort_unique (sortCompare s.config) (fun a b => b.pid ≤ a.pid)
    · intro a b c hab hbc
      exact le_trans hbc hab
    · intro a b h
      simp [sortCompare, sortResult, hkey, hrev] at h
      exact h
    · intro a b h
      simp [sortCompare, sortResult, hkey, hrev] at h
      exact le_of_lt h
    · intro a ha b hb hab hba
      exact hinj a ha b hb (le_antisymm hba hab)
    · exact hperm
    · exact hsorted

/-! ### The visibility test -/

theorem findStr_isSome_iff (needle hay : List Char) :
    (findStr needle hay).isSome = true ↔ needle <:+: hay := by
  induction hay with
  | nil =>
    unfold findStr
    by_cases h : needle = []
    · simp [h]
    · simp [h]
  | cons x xs ih =>
    unfold findStr
    rw [List.infix_cons_iff]
    by_cases hp : needle.isPrefixOf (x :: xs) = true
    · rw [if_pos hp]
      simp only [Option.isSome_some, true_iff]
      exact Or.inl (List.isPrefixOf_iff_prefix.mp hp)
    · rw [if_neg hp]
      have hp' : ¬ needle <+: x :: xs := fun h => hp (List.isPrefixOf_iff_prefix.mpr h)
      simp only [Option.isSome_map']
      rw [ih]
      constructor
      · exact Or.inr
      · rintro (h | h)
        · exact absurd h hp'
        · exact h

theorem shouldShowProcess_iff (config : MtopConfig) (proc : ProcessInfo) :
    shouldShowProcess config proc = true ↔ specVisible config proc := by
  unfold shouldShowProcess specVisible
  have hhide : (config.hide_processes.any
      (fun hidden => (findStr hidden.data proc.name.data).isSome)) = true ↔
      ∃ hidden ∈ config.hide_processes, hidden.data <:+: proc.name.data := by
    simp only [List.any_eq_true, findStr_isSome_iff]
  have husers : (config.show_only_users.any (fun user => proc.user == user)) = true ↔
      proc.user ∈ config.show_only_users := by
    simp [List.any_eq_true]
  by_cases hk : (proc.is_kernel_thread && !config.show_kernel_threads) = true
  · rw [if_pos hk]
    simp only [Bool.and_eq_true, Bool.not_eq_true'] at hk
    simp [hk.1, hk.2]
  · rw [if_neg hk]
    have hk' : proc.is_kernel_thread = false ∨ config.show_kernel_threads = true := by
      cases h1 : proc.is_kernel_thread <;> cases h2 : config.show_kernel_threads <;> simp_all
    by_cases hh : (config.hide_processes.any
        (fun hidden => (findStr hidden.data proc.name.data).isSome)) = true
    · rw [if_pos hh]
      obtain ⟨hidden, hmem, hin⟩ := hhide.mp hh
      constructor
      · intro h
        cases h
      · intro h
        exact absurd hin (h.2.1 hidden hmem)
    · rw [if_neg hh]
      have hh' : ∀ hidden ∈ config.hide_processes, ¬ hidden.data <:+: proc.name.data := by
        intro hidden hmem hin
        exact hh (hhide.mpr ⟨hidden, hmem, hin⟩)
      by_cases he : config.show_only_users = []
      · simp only [he, List.isEmpty_nil, Bool.not_true, Bool.false_eq_true, if_false, true_iff]
        exact ⟨hk', hh', Or.inl trivial⟩
      · have he' : (!config.show_only_users.isEmpty) = true := by
          cases hl : config.show_only_users with
          | nil => exact absurd hl he
          | cons a l => rfl
        rw [if_pos he']
        by_cases hu : (config.show_only_users.any (fun user => proc.user == user)) = true
        · rw [if_pos hu]
          simp only [true_iff]
          exact ⟨hk', hh', Or.inr (husers.mp hu)⟩
        · rw [if_neg hu]
          have hu' : proc.user ∉ config.show_only_users := fun h => hu (husers.mpr h)
          simp [he, hu']

/-! ### The process table -/

theorem cpuCores_pos (s : SystemInfo) : 1 ≤ cpuCores s := by
  unfold cpuCores
  split <;> omega

theorem calculateProcessCpuPercent_bounds (s : SystemInfo) (current previous : ProcessInfo) :
    0 ≤ calculateProcessCpuPercent s current previous ∧
    calculateProcessCpuPercent s current previous ≤ 100 * (cpuCores s : ℚ) := by
  have hc : (0 : ℚ) ≤ (cpuCores s : ℚ) := by
    have := cpuCores_pos s
    exact_mod_cast (by omega : (0 : Int) ≤ cpuCores s)
  unfold calculateProcessCpuPercent
  simp only
  have h100 : (0 : ℚ) ≤ 100 * (cpuCores s : ℚ) := mul_nonneg (by norm_num) hc
  split
  · exact ⟨le_refl _, h100⟩
  · refine ⟨le_min ?_ h100, min_le_right _ _⟩
    exact div_nonneg (mul_nonneg (mul_nonneg (by norm_num) (Nat.cast_nonneg _)) hc)
      (Nat.cast_nonneg _)

theorem assignCpuPercent_pid (s : SystemInfo) (proc : ProcessInfo) :
    (assignCpuPercent s proc).pid = proc.pid := by
  unfold assignCpuPercent
  split <;> rfl

theorem assignCpuPercent_cpu (s : SystemInfo) (proc : ProcessInfo) :
    (∃ previous, mapFind s.prev_processes proc.pid = some previous ∧
        (assignCpuPercent s proc).cpu_percent = calculateProcessCpuPercent s proc previous) ∨
      (mapFind s.prev_processes proc.pid = none ∧ (assignCpuPercent s proc).cpu_percent = 0) := by
  unfold assignCpuPercent
  split
  · rename_i previous hfind
    exact Or.inl ⟨previous, hfind, by simp only⟩
  · rename_i hfind
    exact Or.inr ⟨hfind, by simp only⟩

/-- What a pushed record is: a process with the pid of its directory entry, passed through
`assignCpuPercent`. -/
theorem parseStatFields_pushed {s : SystemInfo} {fs : ProcFS} {e : ProcEntry} {pid : Int}
    {name : List Char} {fields : List (List Char)} {p : ProcessInfo}
    (h : parseStatFields s fs e pid name fields = .pushed p) :
    ∃ proc, p = assignCpuPercent s proc ∧ proc.pid = pid := by
  unfold parseStatFields at h
  split at h
  · cases h
  · split at h
    · cases h
    · split at h
      · cases h
      · split at h
        · cases h
        · split at h
          · cases h
          · injection h with h
            exact ⟨_, h.symm, rfl⟩

theorem readProcessEntry_pushed {s : SystemInfo} {fs : ProcFS} {e : ProcEntry} {p : ProcessInfo}
    (h : readProcessEntry s fs e = .pushed p) :
    ∃ proc, p = assignCpuPercent s proc ∧ stoi e.filename.data = some proc.pid := by
  unfold readProcessEntry at h
  split at h
  · cases h
  · split at h
    · cases h
    · split at h
      · cases h
      · rename_i pid hpid
        split at h
        · cases h
        · split at h
          · simp only at h
            split at h
            · obtain ⟨proc, hp, hproc⟩ := parseStatFields_pushed h
              exact ⟨proc, hp, by rw [hproc, hpid]⟩
            · cases h
          · cases h

theorem mem_readProcessesLoop {s : SystemInfo} {fs : ProcFS} {p : ProcessInfo} :
    ∀ (es : List ProcEntry) (acc : List ProcessInfo × Int),
      p ∈ (readProcessesLoop s fs es acc).1 →
      p ∈ acc.1 ∨ ∃ e ∈ es, readProcessEntry s fs e = .pushed p
  | [], acc, h => Or.inl h
  | e :: es, acc, h => by
    unfold readProcessesLoop at h
    split at h
    · rcases mem_readProcessesLoop es acc h with h' | ⟨e', he', hp⟩
      · exact Or.inl h'
      · exact Or.inr ⟨e', List.mem_cons_of_mem _ he', hp⟩
    · rename_i proc hproc
      rcases mem_readProcessesLoop es _ h with h' | ⟨e', he', hp⟩
      · rcases List.mem_append.mp h' with h'' | h''
        · exact Or.inl h''
        · rw [List.mem_singleton] at h''
          exact Or.inr ⟨e, List.mem_cons_self _ _, by rw [h'', hproc]⟩
      · exact Or.inr ⟨e', List.mem_cons_of_mem _ he', hp⟩
    · exact Or.inl h

theorem mem_readProcesses {s : SystemInfo} {fs : ProcFS} {p : ProcessInfo}
    (h : p ∈ (readProcesses fs s).stats.processes) :
    ∃ e ∈ fs.proc, readProcessEntry s fs e = .pushed p := by
  rcases mem_readProcessesLoop fs.proc ([], 0) h with h' | h'
  · cases h'
  · exact h'

theorem readCpuStats_keeps (fs : ProcFS) (s : SystemInfo) :
    (readCpuStats fs s).prev_processes = s.prev_processes ∧
    (readCpuStats fs s).cpu_cores = s.cpu_cores := by
  unfold readCpuStats
  split
  · exact ⟨rfl, rfl⟩
  · exact ⟨rfl, rfl⟩
  · split
    · exact ⟨rfl, rfl⟩
    · exact ⟨rfl, rfl⟩

theorem readMemoryStats_keeps (fs : ProcFS) (s : SystemInfo) :
    (readMemoryStats fs s).prev_processes = s.prev_processes ∧
    (readMemoryStats fs s).cpu_cores = s.cpu_cores ∧
    (readMemoryStats fs s).stats.cpu_percent = s.stats.cpu_percent := by
  unfold readMemoryStats
  split <;> exact ⟨rfl, rfl, rfl⟩

theorem readLoadAverage_keeps (fs : ProcFS) (s : SystemInfo) :
    (readLoadAverage fs s).prev_processes = s.prev_processes ∧
    (readLoadAverage fs s).cpu_cores = s.cpu_cores ∧
    (readLoadAverage fs s).stats.cpu_percent = s.stats.cpu_percent := by
  unfold readLoadAverage
  split <;> exact ⟨rfl, rfl, rfl⟩

theorem readNetworkStats_keeps (fs : ProcFS) (s : SystemInfo) :
    (readNetworkStats fs s).prev_processes = s.prev_processes ∧
    (readNetworkStats fs s).cpu_cores = s.cpu_cores ∧
    (readNetworkStats fs s).stats.cpu_percent = s.stats.cpu_percent := by
  unfold readNetworkStats
  split <;> exact ⟨rfl, rfl, rfl⟩

theorem updateStats_cpu_percent (fs : ProcFS) (s : SystemInfo) :
    (updateStats fs s).stats.cpu_percent = (readCpuStats fs s).stats.cpu_percent := by
  have h1 := (readMemoryStats_keeps fs (readCpuStats fs s)).2.2
  have h2 := (readLoadAverage_keeps fs (readMemoryStats fs (readCpuStats fs s))).2.2
  have h3 := (readNetworkStats_keeps fs
    (readLoadAverage fs (readMemoryStats fs (readCpuStats fs s)))).2.2
  rw [← h1, ← h2, ← h3]
  rfl

theorem readCpuStats_zero_baseline (fs : ProcFS) (s : SystemInfo) (h : s.prev_total_time = 0) :
    (readCpuStats fs s).stats.cpu_percent = 0 := by
  unfold readCpuStats
  split
  · rfl
  · rfl
  · split
    · simp [setCpuPercent, calculateCpuPercent, h]
    · rfl

/-- Every published process was pushed by `readProcesses`, which ran on the state the four
counter readers left. -/
theorem mem_updateStats {fs : ProcFS} {s : SystemInfo} {p : ProcessInfo}
    (h : p ∈ (updateStats fs s).stats.processes) :
    p ∈ (readProcesses fs (readNetworkStats fs (readLoadAverage fs
      (readMemoryStats fs (readCpuStats fs s))))).stats.processes := by
  unfold updateStats at h
  have h1 := (stdSort_perm _ _).mem_iff.mp h
  unfold applyProcessFilters at h1
  simp only at h1
  split at h1
  · exact (List.mem_filter.mp (List.mem_of_mem_take h1)).1
  · exact (List.mem_filter.mp h1).1

theorem pre_reads_keep (fs : ProcFS) (s : SystemInfo) :
    (readNetworkStats fs (readLoadAverage fs
      (readMemoryStats fs (readCpuStats fs s)))).prev_processes = s.prev_processes ∧
    cpuCores (readNetworkStats fs (readLoadAverage fs
      (readMemoryStats fs (readCpuStats fs s)))) = cpuCores s := by
  unfold cpuCores
  rw [(readNetworkStats_keeps _ _).1, (readLoadAverage_keeps _ _).1, (readMemoryStats_keeps _ _).1,
    (readCpuStats_keeps _ _).1, (readNetworkStats_keeps _ _).2.1, (readLoadAverage_keeps _ _).2.1,
    (readMemoryStats_keeps _ _).2.1, (readCpuStats_keeps _ _).2]
  exact ⟨rfl, rfl⟩

theorem pre_reads_config (fs : ProcFS) (s : SystemInfo) :
    (readProcesses fs (readNetworkStats fs (readLoadAverage fs
      (readMemoryStats fs (readCpuStats fs s))))).config = s.config := by
  have h1 : (readCpuStats fs s).config = s.config := by
    unfold readCpuStats
    split
    · rfl
    · rfl
    · split <;> rfl
  have h2 : ∀ t, (readMemoryStats fs t).config = t.config := by
    intro t
    unfold readMemoryStats
    split <;> rfl
  have h3 : ∀ t, (readLoadAverage fs t).config = t.config := by
    intro t
    unfold readLoadAverage
    split <;> rfl
  have h4 : ∀ t, (readNetworkStats fs t).config = t.config := by
    intro t
    unfold readNetworkStats
    split <;> rfl
  have h5 : ∀ t, (readProcesses fs t).config = t.config := fun _ => rfl
  rw [h5, h4, h3, h2, h1]

theorem assignCpuPercent_bounds (s : SystemInfo) (proc : ProcessInfo) :
    0 ≤ (assignCpuPercent s proc).cpu_percent ∧
    (assignCpuPercent s proc).cpu_percent ≤ 100 * (cpuCores s : ℚ) := by
  rcases assignCpuPercent_cpu s proc with ⟨previous, _, h⟩ | ⟨_, h⟩
  · rw [h]
    exact calculateProcessCpuPercent_bounds s proc previous
  · rw [h]
    have := cpuCores_pos s
    have hc : (0 : ℚ) ≤ (cpuCores s : ℚ) := by exact_mod_cast (by omega : (0 : Int) ≤ cpuCores s)
    exact ⟨le_refl _, mul_nonneg (by norm_num) hc⟩

theorem parseStatFields_of_parse (s : SystemInfo) (fs : ProcFS) (e : ProcEntry) (pid : Int)
    (name : List Char) (fields : List (List Char))
    (h1 : (stoi (fields.getD 1 [])).isSome = true) (h11 : (stoull (fields.getD 11 [])).isSome = true)
    (h12 : (stoull (fields.getD 12 [])).isSome = true)
    (h19 : (stoull (fields.getD 19 [])).isSome = true)
    (h21 : (stoull (fields.getD 21 [])).isSome = true) :
    ∃ p, parseStatFields s fs e pid name fields = .pushed p ∧ p.pid = pid := by
  obtain ⟨v1, e1⟩ := Option.isSome_iff_exists.mp h1
  obtain ⟨v11, e11⟩ := Option.isSome_iff_exists.mp h11
  obtain ⟨v12, e12⟩ := Option.isSome_iff_exists.mp h12
  obtain ⟨v19, e19⟩ := Option.isSome_iff_exists.mp h19
  obtain ⟨v21, e21⟩ := Option.isSome_iff_exists.mp h21
  unfold parseStatFields
  simp only [e1, e11, e12, e19, e21]
  exact ⟨_, rfl, assignCpuPercent_pid _ _⟩

/-- Under `numericTokensParse`, the loop body pushes exactly the records with at least 22 tokens
and skips every other entry. -/
theorem readProcessEntry_of_parse (s : SystemInfo) (fs : ProcFS) (e : ProcEntry)
    (h : numericTokensParse e = true) :
    (isFullRecord e = true →
      ∃ p, readProcessEntry s fs e = .pushed p ∧ stoi e.filename.data = some p.pid) ∧
    (isFullRecord e = false → readProcessEntry s fs e = .skipped) := by
  unfold numericTokensParse at h
  rw [Bool.and_eq_true] at h
  obtain ⟨hname, htok⟩ := h
  unfold isFullRecord
  unfold statRecordTokens at htok ⊢
  unfold readProcessEntry
  cases hd : e.is_directory
  · simp
  · cases hf : e.filename.data.all isdigit
    · simp
    · simp only [hd, hf, Bool.and_self, Bool.not_true, Bool.false_or] at hname
      obtain ⟨pid, hpid⟩ := Option.isSome_iff_exists.mp hname
      simp only [hd, hf, Bool.and_self, if_true, Bool.not_true, Bool.false_eq_true, if_false,
        hpid] at htok ⊢
      cases hs : e.stat with
      | none => simp
      | some stat_line =>
        simp only [hs] at htok ⊢
        cases h1 : findChar '(' stat_line.data with
        | none => simp
        | some first_paren =>
          cases h2 : rfindChar ')' stat_line.data with
          | none => simp
          | some last_paren =>
            simp only [h1, h2] at htok ⊢
            by_cases hlen : 22 ≤ (readFields (stat_line.data.drop (last_paren + 1))).length
            · simp only [hlen, decide_True, Bool.not_true, Bool.false_or, Bool.and_eq_true]
                at htok
              obtain ⟨⟨⟨⟨t1, t11⟩, t12⟩, t19⟩, t21⟩ := htok
              obtain ⟨p, hp, hpp⟩ := parseStatFields_of_parse s fs e pid
                (substr stat_line.data (first_paren + 1) (sub64 (sub64 last_paren first_paren) 1))
                _ t1 t11 t12 t19 t21
              simp only [hlen, if_true, decide_True, forall_true_left, Bool.true_eq_false,
                false_implies, and_true]
              exact ⟨p, hp, by rw [hpp]⟩
            · simp [hlen]

theorem readProcessesLoop_of_parse (s : SystemInfo) (fs : ProcFS) :
    ∀ (es : List ProcEntry) (acc : List ProcessInfo × Int),
      (∀ e ∈ es, numericTokensParse e = true) →
      (readProcessesLoop s fs es acc).1.map (·.pid)
        = acc.1.map (·.pid)
          ++ (es.filter isFullRecord).filterMap (fun e => stoi e.filename.data) ∧
      (readProcessesLoop s fs es acc).2 = acc.2 + ((es.filter isFullRecord).length : Int)
  | [], acc, _ => by simp [readProcessesLoop]
  | e :: es, acc, h => by
    have he := readProcessEntry_of_parse s fs e (h e (List.mem_cons_self _ _))
    have hes : ∀ e' ∈ es, numericTokensParse e' = true :=
      fun e' he' => h e' (List.mem_cons_of_mem _ he')
    unfold readProcessesLoop
    cases hfull : isFullRecord e
    · rw [he.2 hfull]
      have ih := readProcessesLoop_of_parse s fs es acc hes
      simpa [List.filter_cons, hfull] using ih
    · obtain ⟨p, hp, hpid⟩ := he.1 hfull
      rw [hp]
      have ih := readProcessesLoop_of_parse s fs es (acc.1 ++ [p], acc.2 + 1) hes
      simp only [List.filter_cons, hfull, if_true, List.filterMap_cons, hpid, List.length_cons]
      constructor
      · rw [ih.1]
        simp
      · rw [ih.2]
        push_cast
        ring

theorem length_filter_isStatRecord (es : List ProcEntry) :
    (es.filter isStatRecord).length
      = (es.filter isFullRecord).length + (es.filter isShortRecord).length := by
  induction es with
  | nil => rfl
  | cons e es ih =>
    simp only [List.filter_cons]
    unfold isStatRecord isFullRecord isShortRecord at *
    cases ht : statRecordTokens e with
    | none => simpa using ih
    | some tokens =>
      by_cases hlen : 22 ≤ tokens.length
      · have hlt : ¬ tokens.length < 22 := by omega
        simp only [Option.isSome_some, if_true, hlen, hlt, decide_True, decide_False,
          Bool.false_eq_true, if_false, List.length_cons]
        omega
      · have hlt : tokens.length < 22 := by omega
        simp only [Option.isSome_some, if_true, hlen, hlt, decide_True, decide_False,
          Bool.false_eq_true, if_false, List.length_cons]
        omega

/-! ### Tokens, counters and the snapshot store -/

theorem isspace_of_isdigit {c : Char} (h : isdigit c = true) : isspace c = false := by
  unfold isdigit at h
  unfold isspace
  simp only [Bool.and_eq_true, decide_eq_true_eq] at h
  simp only [Bool.or_eq_false_iff, decide_eq_false_iff_not, Bool.and_eq_false_imp,
    decide_eq_true_eq]
  omega

theorem skipWs_append_of_all {ws x : List Char} (h : ws.all isspace = true) :
    skipWs (ws ++ x) = skipWs x := by
  induction ws with
  | nil => rfl
  | cons c cs ih =>
    simp only [List.all_cons, Bool.and_eq_true] at h
    simp only [List.cons_append, skipWs, h.1, if_true]
    exact ih h.2

theorem skipWs_of_head {x : List Char} (h : emptyOrHead (fun c => !isspace c) x = true) :
    skipWs x = x := by
  cases x with
  | nil => rfl
  | cons c cs =>
    simp only [emptyOrHead, Bool.not_eq_true'] at h
    simp [skipWs, h]

theorem takeWord_append {w r : List Char} (hw : w.all (fun c => !isspace c) = true)
    (hr : emptyOrHead isspace r = true) : takeWord (w ++ r) = (w, r) := by
  induction w with
  | nil =>
    cases r with
    | nil => rfl
    | cons c cs =>
      simp only [emptyOrHead] at hr
      simp [takeWord, hr]
  | cons c cs ih =>
    simp only [List.all_cons, Bool.and_eq_true, Bool.not_eq_true'] at hw
    have ih' := ih hw.2
    rw [List.cons_append]
    unfold takeWord
    rw [if_neg (by simp [hw.1]), ih']

theorem takeDigits_append {d r : List Char} (hd : d.all isdigit = true)
    (hr : emptyOrHead (fun c => !isdigit c) r = true) : takeDigits (d ++ r) = (d, r) := by
  induction d with
  | nil =>
    cases r with
    | nil => rfl
    | cons c cs =>
      simp only [emptyOrHead, Bool.not_eq_true'] at hr
      simp [takeDigits, hr]
  | cons c cs ih =>
    simp only [List.all_cons, Bool.and_eq_true] at hd
    have ih' := ih hd.2
    rw [List.cons_append]
    unfold takeDigits
    rw [if_pos hd.1, ih']

theorem takeSign_of_digit {c : Char} {cs : List Char} (h : isdigit c = true) :
    takeSign (c :: cs) = (false, c :: cs) := by
  have h1 : c ≠ '-' := by
    intro hc
    rw [hc] at h
    exact absurd h (by decide)
  have h2 : c ≠ '+' := by
    intro hc
    rw [hc] at h
    exact absurd h (by decide)
  simp [takeSign, h1, h2]

/-- The extraction of a word that stands between whitespace. -/
theorem extractString_token {ws w r : List Char} (hws : ws.all isspace = true) (hw : w ≠ [])
    (hnsp : w.all (fun c => !isspace c) = true) (hr : emptyOrHead isspace r = true) :
    extractString (ws ++ (w ++ r)) = some (w, r) := by
  unfold extractString
  have hhead : emptyOrHead (fun c => !isspace c) (w ++ r) = true := by
    cases w with
    | nil => exact absurd rfl hw
    | cons c cs =>
      simp only [List.all_cons, Bool.and_eq_true] at hnsp
      exact hnsp.1
  rw [skipWs_append_of_all hws, skipWs_of_head hhead, takeWord_append hnsp hr]
  simp [hw]

/-- The extraction of a decimal number that stands after whitespace and before a character
that is no digit. -/
theorem extractU64_token {ws d r : List Char} (hws : ws.all isspace = true) (hd : d ≠ [])
    (hdig : d.all isdigit = true) (hval : digitsToNat d < U64_MOD)
    (hr : emptyOrHead (fun c => !isdigit c) r = true) :
    extractU64 (ws ++ (d ++ r)) = some (digitsToNat d, r) := by
  unfold extractU64
  cases d with
  | nil => exact absurd rfl hd
  | cons c cs =>
    have hc : isdigit c = true := by
      simp only [List.all_cons, Bool.and_eq_true] at hdig
      exact hdig.1
    have hhead : emptyOrHead (fun c => !isspace c) ((c :: cs) ++ r) = true := by
      simp [emptyOrHead, isspace_of_isdigit hc]
    rw [skipWs_append_of_all hws, skipWs_of_head hhead]
    simp only [List.cons_append, takeSign_of_digit hc]
    have htd := takeDigits_append hdig hr
    simp only [List.cons_append] at htd
    rw [htd]
    simp [Nat.not_le.mpr hval]

theorem wellFormedToken_iff (t : List Char × List Char) :
    wellFormedToken t = true ↔
      t.1 ≠ [] ∧ t.1.all isspace = true ∧ t.2 ≠ [] ∧ t.2.all isdigit = true ∧
        digitsToNat t.2 < U64_MOD := by
  unfold wellFormedToken
  simp only [Bool.and_eq_true, Bool.not_eq_true', List.isEmpty_eq_false, decide_eq_true_eq,
    ne_eq]
  constructor
  · rintro ⟨⟨⟨⟨h1, h2⟩, h3⟩, h4⟩, h5⟩
    exact ⟨h1, h2, h3, h4, h5⟩
  · rintro ⟨h1, h2, h3, h4, h5⟩
    exact ⟨⟨⟨⟨h1, h2⟩, h3⟩, h4⟩, h5⟩

theorem emptyOrHead_numberTokens (p : Char → Bool) (hp : ∀ c, isspace c = true → p c = true)
    (ts : List (List Char × List Char)) (tail : List Char)
    (hts : ∀ t ∈ ts, wellFormedToken t = true) (htail : emptyOrHead p tail = true) :
    emptyOrHead p (numberTokens ts ++ tail) = true := by
  cases ts with
  | nil => exact htail
  | cons t rest =>
    obtain ⟨h1, h2, _⟩ := (wellFormedToken_iff t).mp (hts t (List.mem_cons_self _ _))
    cases hsep : t.1 with
    | nil => exact absurd hsep h1
    | cons c cs =>
      rw [hsep] at h2
      simp only [List.all_cons, Bool.and_eq_true] at h2
      simp only [numberTokens, hsep, List.cons_append, emptyOrHead]
      exact hp c h2.1

theorem extractU64_numberTokens (t : List Char × List Char)
    (ts : List (List Char × List Char)) (tail : List Char)
    (ht : wellFormedToken t = true) (hts : ∀ t' ∈ ts, wellFormedToken t' = true)
    (htail : emptyOrHead (fun c => !isdigit c) tail = true) :
    extractU64 (numberTokens (t :: ts) ++ tail) = some (tokenValue t, numberTokens ts ++ tail) := by
  obtain ⟨_, h2, h3, h4, h5⟩ := (wellFormedToken_iff t).mp ht
  have hrest : emptyOrHead (fun c => !isdigit c) (numberTokens ts ++ tail) = true := by
    apply emptyOrHead_numberTokens _ _ ts tail hts htail
    intro c hc
    cases hd : isdigit c
    · rfl
    · rw [isspace_of_isdigit hd] at hc
      cases hc
  have h := extractU64_token h2 h3 h4 h5 hrest
  simpa only [numberTokens, List.append_assoc, tokenValue] using h

theorem skipWs_of_all {ws : List Char} (h : ws.all isspace = true) : skipWs ws = [] := by
  have := skipWs_append_of_all (x := []) h
  simpa using this

theorem extractU64_of_all_space {ws : List Char} (h : ws.all isspace = true) :
    extractU64 ws = none := by
  unfold extractU64
  rw [skipWs_of_all h]
  rfl

/-- The values read from a run of well-formed number tokens that ends the line: the numbers
the tokens denote, in order, as many as the bound allows. -/
theorem readValues_numberTokens (n : Nat) (ts : List (List Char × List Char)) (tail : List Char)
    (hts : ∀ t ∈ ts, wellFormedToken t = true) (htail : tail.all isspace = true) :
    readValues n (numberTokens ts ++ tail) = (ts.take n).map tokenValue := by
  induction n generalizing ts with
  | zero => simp [readValues]
  | succ n ih =>
    cases ts with
    | nil =>
      simp only [numberTokens, List.nil_append, readValues, extractU64_of_all_space htail,
        List.take_nil, List.map_nil]
    | cons t rest =>
      have hrest : ∀ t' ∈ rest, wellFormedToken t' = true :=
        fun t' h => hts t' (List.mem_cons_of_mem _ h)
      have htail' : emptyOrHead (fun c => !isdigit c) tail = true := by
        cases tail with
        | nil => rfl
        | cons c cs =>
          simp only [List.all_cons, Bool.and_eq_true] at htail
          simp only [emptyOrHead, Bool.not_eq_true']
          cases hd : isdigit c
          · rfl
          · rw [isspace_of_isdigit hd] at htail
            exact absurd htail.1 (by simp)
      rw [readValues, extractU64_numberTokens t rest tail (hts t (List.mem_cons_self _ _)) hrest
        htail']
      simp only [List.take_succ_cons, List.map_cons, ih rest hrest]

/-- A line that holds a label and then eight well-formed number tokens is parsed into the
eight numbers. -/
theorem parseCpuLine_tokens (ws0 label tail : List Char) (ts : List (List Char × List Char))
    (hws0 : ws0.all isspace = true) (hlabel : label ≠ [])
    (hword : label.all (fun c => !isspace c) = true)
    (hts : ∀ t ∈ ts, wellFormedToken t = true) (hlen : ts.length = 8)
    (htail : emptyOrHead (fun c => !isdigit c) tail = true) :
    parseCpuLine (ws0 ++ (label ++ (numberTokens ts ++ tail))) = some (ts.map tokenValue) := by
  match ts, hlen, hts with
  | [t1, t2, t3, t4, t5, t6, t7, t8], _, hts =>
    have hsp : emptyOrHead isspace
        (numberTokens [t1, t2, t3, t4, t5, t6, t7, t8] ++ tail) = true := by
      obtain ⟨h1, h2, _⟩ := (wellFormedToken_iff t1).mp (hts t1 (List.mem_cons_self _ _))
      cases hsep : t1.1 with
      | nil => exact absurd hsep h1
      | cons c cs =>
        rw [hsep] at h2
        simp only [List.all_cons, Bool.and_eq_true] at h2
        simp only [numberTokens, hsep, List.cons_append, emptyOrHead]
        exact h2.1
    have w : ∀ t ∈ [t1, t2, t3, t4, t5, t6, t7, t8], wellFormedToken t = true := hts
    simp only [List.mem_cons, List.mem_singleton, List.not_mem_nil, or_false,
      forall_eq_or_imp, forall_eq] at w
    obtain ⟨w1, w2, w3, w4, w5, w6, w7, w8⟩ := w
    have a8 := extractU64_numberTokens t8 [] tail w8 (by simp) htail
    have a7 := extractU64_numberTokens t7 [t8] tail w7 (by simp [w8]) htail
    have a6 := extractU64_numberTokens t6 [t7, t8] tail w6 (by simp [w7, w8]) htail
    have a5 := extractU64_numberTokens t5 [t6, t7, t8] tail w5 (by simp [w6, w7, w8]) htail
    have a4 := extractU64_numberTokens t4 [t5, t6, t7, t8] tail w4
      (by simp [w5, w6, w7, w8]) htail
    have a3 := extractU64_numberTokens t3 [t4, t5, t6, t7, t8] tail w3
      (by simp [w4, w5, w6, w7, w8]) htail
    have a2 := extractU64_numberTokens t2 [t3, t4, t5, t6, t7, t8] tail w2
      (by simp [w3, w4, w5, w6, w7, w8]) htail
    have a1 := extractU64_numberTokens t1 [t2, t3, t4, t5, t6, t7, t8] tail w1
      (by simp [w2, w3, w4, w5, w6, w7, w8]) htail
    unfold parseCpuLine
    rw [extractString_token hws0 hlabel hword hsp]
    simp only [Option.bind_eq_bind, Option.some_bind, a1, a2, a3, a4, a5, a6, a7, a8]
    rfl

theorem add64_chain (a b c d e f g h : Nat) :
    add64 (add64 (add64 (add64 (add64 (add64 (add64 a b) c) d) e) f) g) h
      = (a + b + c + d + e + f + g + h) % U64_MOD := by
  unfold add64 U64_MOD
  omega

theorem takeDigits_length (s : List Char) :
    (takeDigits s).1.length + (takeDigits s).2.length = s.length := by
  induction s with
  | nil => rfl
  | cons c cs ih =>
    unfold takeDigits
    split
    · simp only [List.length_cons]
      omega
    · simp

theorem takeSign_length_le (s : List Char) : (takeSign s).2.length ≤ s.length := by
  cases s with
  | nil => exact Nat.le_refl _
  | cons c cs =>
    simp only [takeSign]
    by_cases h1 : c = '-'
    · rw [if_pos h1]
      exact Nat.le_succ _
    · rw [if_neg h1]
      by_cases h2 : c = '+'
      · rw [if_pos h2]
        exact Nat.le_succ _
      · rw [if_neg h2]

/-- An extracted number takes at least one character off the stream. -/
theorem extractU64_rest_lt {s rest : List Char} {v : Nat} (h : extractU64 s = some (v, rest)) :
    rest.length < s.length := by
  unfold extractU64 at h
  simp only at h
  split at h
  · cases h
  · rename_i hne
    split at h
    · cases h
    · injection h with h
      injection h with _ hrest
      have h1 := takeDigits_length (takeSign (skipWs s)).2
      have h2 := takeSign_length_le (skipWs s)
      have h3 := skipWs_length_le s
      have h4 : 0 < (takeDigits (takeSign (skipWs s)).2).1.length := List.length_pos.mpr hne
      rw [hrest] at h1
      omega

theorem readValues_length_le (n : Nat) (s : List Char) : (readValues n s).length ≤ n := by
  induction n generalizing s with
  | zero => simp [readValues]
  | succ n ih =>
    unfold readValues
    split
    · simp
    · simp only [List.length_cons]
      exact Nat.succ_le_succ (ih _)

theorem readValues_take (n m : Nat) (s : List Char) (h : n ≤ m) :
    readValues n s = (readValues m s).take n := by
  induction n generalizing m s with
  | zero => simp [readValues]
  | succ n ih =>
    cases m with
    | zero => omega
    | succ m =>
      unfold readValues
      cases hx : extractU64 s with
      | none => simp
      | some p =>
        obtain ⟨v, rest⟩ := p
        simp only [List.take_succ_cons]
        rw [ih m rest (by omega)]

theorem readValues_stable :
    ∀ (n m : Nat) (s : List Char), s.length < n → s.length < m →
      readValues n s = readValues m s
  | 0, _, _, hn, _ => absurd hn (Nat.not_lt_zero _)
  | _ + 1, 0, _, _, hm => absurd hm (Nat.not_lt_zero _)
  | n + 1, m + 1, s, hn, hm => by
    unfold readValues
    cases h : extractU64 s with
    | none => rfl
    | some p =>
      obtain ⟨v, rest⟩ := p
      have hlt := extractU64_rest_lt h
      simp only
      rw [readValues_stable n m rest (by omega) (by omega)]

/-- The fields of a text as the source reads them one after the other, until an extraction
fails. -/
theorem unsignedFields_unfold (s : List Char) :
    unsignedFields s =
      match extractU64 s with
      | none => []
      | some (v, rest) => v :: unsignedFields rest := by
  unfold unsignedFields
  rw [readValues]
  cases h : extractU64 s with
  | none => rfl
  | some p =>
    obtain ⟨v, rest⟩ := p
    have hlt := extractU64_rest_lt h
    simp only
    rw [readValues_stable s.length (rest.length + 1) rest hlt (Nat.lt_succ_self _)]

/-- The bounded loop of the source reads the first `n` fields. -/
theorem readValues_eq_take (n : Nat) (s : List Char) :
    readValues n s = (unsignedFields s).take n := by
  unfold unsignedFields
  by_cases h : n ≤ s.length + 1
  · exact readValues_take n _ s h
  · rw [readValues_stable n (s.length + 1) s (by omega) (Nat.lt_succ_self _)]
    rw [List.take_of_length_le]
    have := readValues_length_le (s.length + 1) s
    omega

theorem getD_take_of_lt (l : List Nat) (n i : Nat) (h : i < n) :
    (l.take n).getD i 0 = l.getD i 0 := by
  simp [List.getD_eq_getElem?_getD, List.getElem?_take, h]

theorem networkLine_eq_spec (line : String) : networkLine line = specNetworkLine line := by
  unfold networkLine specNetworkLine
  cases hx : extractString line.data with
  | none => rfl
  | some p =>
    obtain ⟨w, rest⟩ := p
    simp only
    by_cases hname : stripColon w = [] ∨ stripColon w = "lo".data
    · rw [if_pos hname]
      rcases hname with h | h <;> simp [h]
    · rw [if_neg hname]
      have hname' : ¬ ((stripColon w = [] || stripColon w = "lo".data) = true) := by
        simpa using hname
      rw [if_neg hname']
      have hlen : 10 ≤ (readValues 16 rest).length ↔ 10 ≤ (unsignedFields rest).length := by
        rw [readValues_eq_take, List.length_take]
        omega
      by_cases h10 : 10 ≤ (unsignedFields rest).length
      · rw [if_pos h10, if_pos (hlen.mpr h10)]
        simp only [readValues_eq_take]
        rw [getD_take_of_lt _ 16 0 (by omega), getD_take_of_lt _ 16 1 (by omega),
          getD_take_of_lt _ 16 8 (by omega), getD_take_of_lt _ 16 9 (by omega)]
      · rw [if_neg h10, if_neg (fun h => h10 (hlen.mp h))]

theorem numberTokens_length_le (ts : List (List Char × List Char))
    (hts : ∀ t ∈ ts, wellFormedToken t = true) : ts.length ≤ (numberTokens ts).length := by
  induction ts with
  | nil => exact Nat.le_refl _
  | cons t rest ih =>
    obtain ⟨h1, _, _⟩ := (wellFormedToken_iff t).mp (hts t (List.mem_cons_self _ _))
    have hrest := ih (fun t' h => hts t' (List.mem_cons_of_mem _ h))
    have hpos : 0 < t.1.length := List.length_pos.mpr h1
    simp only [numberTokens, List.length_append, List.length_cons]
    omega

/-- The fields of a run of well-formed number tokens that ends the line are the numbers the
tokens denote. -/
theorem unsignedFields_numberTokens (ts : List (List Char × List Char)) (tail : List Char)
    (hts : ∀ t ∈ ts, wellFormedToken t = true) (htail : tail.all isspace = true) :
    unsignedFields (numberTokens ts ++ tail) = ts.map tokenValue := by
  unfold unsignedFields
  rw [readValues_numberTokens _ ts tail hts htail, List.take_of_length_le]
  have := numberTokens_length_le ts hts
  simp only [List.length_append]
  omega

theorem memoryLine_eq_step (acc : Nat × Nat × Nat) (line : String) :
    memoryLine acc line =
      match memoryEntry line with
      | none => acc
      | some e => memoryStep acc e := by
  unfold memoryLine memoryEntry memoryStep
  cases extractString line.data with
  | none => rfl
  | some p =>
    obtain ⟨key, r⟩ := p
    simp only
    cases extractU64 r with
    | none => rfl
    | some q =>
      obtain ⟨value, rest⟩ := q
      rfl

theorem foldl_memoryLine (lines : List String) (acc : Nat × Nat × Nat) :
    lines.foldl memoryLine acc = (memoryEntries lines).foldl memoryStep acc := by
  induction lines generalizing acc with
  | nil => rfl
  | cons line rest ih =>
    simp only [List.foldl_cons, memoryEntries, List.filterMap_cons]
    rw [memoryLine_eq_step]
    cases h : memoryEntry line with
    | none => exact ih acc
    | some e => exact ih (memoryStep acc e)

theorem foldl_memoryStep_total (es : List (List Char × Nat)) (acc : Nat × Nat × Nat)
    (h : ∀ e ∈ es, e.1 ≠ "MemTotal:".data) : (es.foldl memoryStep acc).1 = acc.1 := by
  induction es generalizing acc with
  | nil => rfl
  | cons e rest ih =>
    have he := h e (List.mem_cons_self _ _)
    rw [List.foldl_cons, ih _ (fun e' h' => h e' (List.mem_cons_of_mem _ h'))]
    unfold memoryStep
    rw [if_neg he]
    split_ifs <;> rfl

theorem foldl_memoryStep_available (es : List (List Char × Nat)) (acc : Nat × Nat × Nat)
    (h : ∀ e ∈ es, e.1 ≠ "MemAvailable:".data) : (es.foldl memoryStep acc).2.2 = acc.2.2 := by
  induction es generalizing acc with
  | nil => rfl
  | cons e rest ih =>
    have he := h e (List.mem_cons_self _ _)
    rw [List.foldl_cons, ih _ (fun e' h' => h e' (List.mem_cons_of_mem _ h'))]
    unfold memoryStep
    split_ifs <;> rfl

theorem foldl_memoryStep_free (es : List (List Char × Nat)) (acc : Nat × Nat × Nat)
    (h : ∀ e ∈ es, e.1 ≠ "MemFree:".data) : (es.foldl memoryStep acc).2.1 = acc.2.1 := by
  induction es generalizing acc with
  | nil => rfl
  | cons e rest ih =>
    have he := h e (List.mem_cons_self _ _)
    rw [List.foldl_cons, ih _ (fun e' h' => h e' (List.mem_cons_of_mem _ h'))]
    unfold memoryStep
    split_ifs with h1 h2 h3
    · rfl
    · rfl
    · simp only [Bool.and_eq_true, decide_eq_true_eq] at h3
      exact absurd h3.1 he
    · rfl

theorem keyCount_cons_self {key : List Char} {v : Nat} {rest : List (List Char × Nat)}
    (h : keyCount key ((key, v) :: rest) ≤ 1) : ∀ e ∈ rest, e.1 ≠ key := by
  unfold keyCount at h
  rw [List.countP_cons_of_pos _ _ (by simp)] at h
  have h0 : rest.countP (fun e => e.1 == key) = 0 := by omega
  intro e he heq
  rw [List.countP_eq_zero] at h0
  exact h0 e he (by simp [heq])

theorem keyCount_tail {key : List Char} {e : List Char × Nat} {rest : List (List Char × Nat)}
    (h : keyCount key (e :: rest) ≤ 1) : keyCount key rest ≤ 1 := by
  unfold keyCount at h ⊢
  have := List.countP_le_length (fun e => e.1 == key) (l := rest)
  rw [List.countP_cons] at h
  omega

theorem lookup_cons_ne {key : List Char} {e : List Char × Nat} {rest : List (List Char × Nat)}
    (h : e.1 ≠ key) : List.lookup key (e :: rest) = List.lookup key rest := by
  obtain ⟨k, v⟩ := e
  have hne : (key == k) = false := by
    simp only [beq_eq_false_iff_ne, ne_eq]
    exact fun h' => h h'.symm
  simp [List.lookup, hne]

theorem lookup_cons_self (key : List Char) (v : Nat) (rest : List (List Char × Nat)) :
    List.lookup key ((key, v) :: rest) = some v := by
  simp [List.lookup]

/-- With at most one `MemTotal` entry, the loop leaves its value, or the start value. -/
theorem foldl_memoryStep_total_value (es : List (List Char × Nat)) (acc : Nat × Nat × Nat)
    (h : keyCount "MemTotal:".data es ≤ 1) :
    (es.foldl memoryStep acc).1 = (es.lookup "MemTotal:".data).getD acc.1 := by
  induction es generalizing acc with
  | nil => rfl
  | cons e rest ih =>
    rw [List.foldl_cons]
    by_cases he : e.1 = "MemTotal:".data
    · obtain ⟨k, v⟩ := e
      simp only at he
      subst he
      rw [foldl_memoryStep_total rest _ (keyCount_cons_self h), lookup_cons_self]
      simp [memoryStep]
    · rw [ih _ (keyCount_tail h), lookup_cons_ne he]
      congr 1
      unfold memoryStep
      split_ifs <;> rfl

/-- With at most one `MemAvailable` entry, the loop leaves its value, or the start value. -/
theorem foldl_memoryStep_available_value (es : List (List Char × Nat)) (acc : Nat × Nat × Nat)
    (h : keyCount "MemAvailable:".data es ≤ 1) :
    (es.foldl memoryStep acc).2.2 = (es.lookup "MemAvailable:".data).getD acc.2.2 := by
  induction es generalizing acc with
  | nil => rfl
  | cons e rest ih =>
    rw [List.foldl_cons]
    by_cases he : e.1 = "MemAvailable:".data
    · obtain ⟨k, v⟩ := e
      simp only at he
      subst he
      rw [foldl_memoryStep_available rest _ (keyCount_cons_self h), lookup_cons_self]
      simp [memoryStep]
    · rw [ih _ (keyCount_tail h), lookup_cons_ne he]
      congr 1
      unfold memoryStep
      split_ifs <;> rfl

/-- With at most one `MemAvailable` and one `MemFree` entry, a loop that starts and ends with
`available_kb = 0` leaves the `MemFree` value, or the start value, wherever the entries stand. -/
theorem foldl_memoryStep_free_value (es : List (List Char × Nat)) (acc : Nat × Nat × Nat)
    (hA : keyCount "MemAvailable:".data es ≤ 1) (hF : keyCount "MemFree:".data es ≤ 1)
    (hstart : acc.2.2 = 0) (hend : (es.foldl memoryStep acc).2.2 = 0) :
    (es.foldl memoryStep acc).2.1 = (es.lookup "MemFree:".data).getD acc.2.1 := by
  induction es generalizing acc with
  | nil => rfl
  | cons e rest ih =>
    rw [List.foldl_cons] at hend ⊢
    by_cases hT : e.1 = "MemTotal:".data
    · have hne : e.1 ≠ "MemFree:".data := by
        rw [hT]
        decide
      have hstep : memoryStep acc e = (e.2, acc.2.1, acc.2.2) := by
        unfold memoryStep
        rw [if_pos hT]
      rw [hstep] at hend ⊢
      rw [ih (e.2, acc.2.1, acc.2.2) (keyCount_tail hA) (keyCount_tail hF) hstart hend,
        lookup_cons_ne hne]
    · by_cases hAv : e.1 = "MemAvailable:".data
      · have hne : e.1 ≠ "MemFree:".data := by
          rw [hAv]
          decide
        have hstep : memoryStep acc e = (acc.1, acc.2.1, e.2) := by
          unfold memoryStep
          rw [if_neg hT, if_pos hAv]
        obtain ⟨k, v⟩ := e
        simp only at hAv hstep hne
        subst hAv
        rw [hstep] at hend ⊢
        have hv : v = 0 := by
          rw [foldl_memoryStep_available rest _ (keyCount_cons_self hA)] at hend
          exact hend
        rw [ih (acc.1, acc.2.1, v) (keyCount_tail hA) (keyCount_tail hF) hv hend,
          lookup_cons_ne hne]
      · by_cases hFr : e.1 = "MemFree:".data
        · have hstep : memoryStep acc e = (acc.1, e.2, acc.2.2) := by
            unfold memoryStep
            rw [if_neg hT, if_neg hAv, if_pos (by simp [hFr, hstart])]
          obtain ⟨k, v⟩ := e
          simp only at hFr hstep
          subst hFr
          rw [hstep, foldl_memoryStep_free rest _ (keyCount_cons_self hF), lookup_cons_self]
          rfl
        · have hstep : memoryStep acc e = acc := by
            unfold memoryStep
            rw [if_neg hT, if_neg hAv, if_neg (by simp [hFr])]
          rw [hstep] at hend ⊢
          rw [ih acc (keyCount_tail hA) (keyCount_tail hF) hstart hend, lookup_cons_ne hFr]

theorem sub64_lt (a b : Nat) : sub64 a b < U64_MOD := by
  unfold sub64 U64_MOD
  omega

/-- A number read into a `uint64_t` is below `2 ^ 64`. -/
theorem extractU64_lt {s rest : List Char} {v : Nat} (h : extractU64 s = some (v, rest)) :
    v < U64_MOD := by
  unfold extractU64 at h
  simp only at h
  split at h
  · cases h
  · split at h
    · cases h
    · rename_i hlt
      injection h with h
      injection h with hv _
      rw [← hv]
      split
      · exact sub64_lt _ _
      · omega

theorem memoryEntry_lt {line : String} {e : List Char × Nat} (h : memoryEntry line = some e) :
    e.2 < U64_MOD := by
  unfold memoryEntry at h
  split at h
  · cases h
  · split at h
    · cases h
    · rename_i hx
      injection h with h
      rw [← h]
      exact extractU64_lt hx

theorem keyValue_lt (key : List Char) (lines : List String) :
    keyValue key (memoryEntries lines) < U64_MOD := by
  unfold keyValue
  have hall : ∀ e ∈ memoryEntries lines, e.2 < U64_MOD := by
    intro e he
    unfold memoryEntries at he
    obtain ⟨line, _, hline⟩ := List.mem_filterMap.mp he
    exact memoryEntry_lt hline
  generalize memoryEntries lines = es at hall
  induction es with
  | nil =>
    unfold U64_MOD
    simp [List.lookup]
  | cons e rest ih =>
    by_cases he : e.1 = key
    · obtain ⟨k, v⟩ := e
      simp only at he
      subst he
      rw [lookup_cons_self]
      exact hall _ (List.mem_cons_self _ _)
    · rw [lookup_cons_ne he]
      exact ih (fun e' h' => hall e' (List.mem_cons_of_mem _ h'))

theorem findChar_append (c : Char) (pre rest : List Char) (h : c ∉ pre) :
    findChar c (pre ++ c :: rest) = some pre.length := by
  induction pre with
  | nil => simp [findChar]
  | cons x xs ih =>
    have hx : x ≠ c := fun hxc => h (by simp [hxc])
    have hxs : c ∉ xs := fun hmem => h (List.mem_cons_of_mem _ hmem)
    simp [findChar, hx, ih hxs]

theorem rfindChar_none (c : Char) (l : List Char) (h : c ∉ l) : rfindChar c l = none := by
  induction l with
  | nil => rfl
  | cons x xs ih =>
    have hx : x ≠ c := fun hxc => h (by simp [hxc])
    have hxs : c ∉ xs := fun hmem => h (List.mem_cons_of_mem _ hmem)
    simp [rfindChar, ih hxs, hx]

theorem rfindChar_append (c : Char) (front post : List Char) (h : c ∉ post) :
    rfindChar c (front ++ c :: post) = some front.length := by
  induction front with
  | nil => simp [rfindChar, rfindChar_none c post h]
  | cons x xs ih => simp [rfindChar, ih]

theorem assignCpuPercent_fields (s : SystemInfo) (proc : ProcessInfo) :
    (assignCpuPercent s proc).name = proc.name ∧ (assignCpuPercent s proc).state = proc.state ∧
    (assignCpuPercent s proc).utime = proc.utime ∧ (assignCpuPercent s proc).stime = proc.stime ∧
    (assignCpuPercent s proc).start_time = proc.start_time ∧
    (assignCpuPercent s proc).memory_kb = proc.memory_kb := by
  unfold assignCpuPercent
  split <;> exact ⟨rfl, rfl, rfl, rfl, rfl, rfl⟩

/-- A token of decimal digits below `2 ^ 64` converts to the number it denotes. -/
theorem stoull_digits (d : List Char) (hd : d ≠ []) (hdig : d.all isdigit = true)
    (hval : digitsToNat d < U64_MOD) : stoull d = some (digitsToNat d) := by
  unfold stoull
  cases d with
  | nil => exact absurd rfl hd
  | cons c cs =>
    have hc : isdigit c = true := by
      simp only [List.all_cons, Bool.and_eq_true] at hdig
      exact hdig.1
    have hhead : emptyOrHead (fun c => !isspace c) (c :: cs) = true := by
      simp [emptyOrHead, isspace_of_isdigit hc]
    have htd := takeDigits_append (r := []) hdig rfl
    rw [List.append_nil] at htd
    rw [skipWs_of_head hhead]
    simp only [takeSign_of_digit hc, htd]
    simp [Nat.not_le.mpr hval]

theorem mapFind_map_ne (m : List (Int × ProcessInfo)) (k k' : Int) (v : ProcessInfo)
    (h : k' ≠ k) :
    mapFind (m.map (fun e => if e.1 == k then (k, v) else e)) k' = mapFind m k' := by
  unfold mapFind
  induction m with
  | nil => rfl
  | cons e rest ih =>
    simp only [List.map_cons, List.find?_cons]
    by_cases he : e.1 = k
    · have h1 : ((k, v).1 == k') = false := by
        simp only [beq_eq_false_iff_ne, ne_eq]
        exact fun h' => h h'.symm
      have h2 : (e.1 == k') = false := by
        simp only [beq_eq_false_iff_ne, ne_eq, he]
        exact fun h' => h h'.symm
      simp only [he, beq_self_eq_true, if_true, h1, h2]
      exact ih
    · have h1 : (e.1 == k) = false := by simpa using he
      simp only [h1, Bool.false_eq_true, if_false]
      cases hek : e.1 == k'
      · exact ih
      · rfl

theorem mapFind_map_self (m : List (Int × ProcessInfo)) (k : Int) (v : ProcessInfo)
    (h : m.any (fun e => e.1 == k) = true) :
    mapFind (m.map (fun e => if e.1 == k then (k, v) else e)) k = some v := by
  unfold mapFind
  induction m with
  | nil => simp at h
  | cons e rest ih =>
    simp only [List.map_cons, List.find?_cons]
    by_cases he : e.1 = k
    · simp [he]
    · have h1 : (e.1 == k) = false := by simpa using he
      simp only [List.any_cons, h1, Bool.false_or] at h
      simp only [h1, Bool.false_eq_true, if_false]
      exact ih h

theorem mapFind_append_new (m : List (Int × ProcessInfo)) (k k' : Int) (v : ProcessInfo)
    (h : m.any (fun e => e.1 == k) = false) :
    mapFind (m ++ [(k, v)]) k' = if k' = k then some v else mapFind m k' := by
  unfold mapFind
  induction m with
  | nil =>
    by_cases hk : k' = k
    · simp [hk]
    · have : (k == k') = false := by
        simp only [beq_eq_false_iff_ne, ne_eq]
        exact fun h' => hk h'.symm
      simp [hk, this]
  | cons e rest ih =>
    simp only [List.any_cons, Bool.or_eq_false_iff] at h
    simp only [List.cons_append, List.find?_cons]
    cases hek : e.1 == k'
    · exact ih h.2
    · have hne : k' ≠ k := by
        intro hkk
        have h1 : e.1 = k' := by simpa using hek
        have h2 : ¬ e.1 = k := by simpa using h.1
        exact h2 (h1.trans hkk)
      simp [hne]

/-- The assignment `prev_processes[pid] = proc` sets the entry of `pid` and leaves the lookup
of every other pid as it was. -/
theorem mapFind_mapAssign (m : List (Int × ProcessInfo)) (k k' : Int) (v : ProcessInfo) :
    mapFind (mapAssign m k v) k' = if k' = k then some v else mapFind m k' := by
  unfold mapAssign
  cases hany : m.any (fun e => e.1 == k)
  · simp only [Bool.false_eq_true, if_false]
    exact mapFind_append_new m k k' v hany
  · simp only [if_true]
    by_cases hk : k' = k
    · rw [if_pos hk, hk]
      exact mapFind_map_self m k v hany
    · rw [if_neg hk]
      exact mapFind_map_ne m k k' v hk

theorem mapFind_rebuild_some (l : List ProcessInfo) (m0 : List (Int × ProcessInfo)) (pid : Int)
    (q : ProcessInfo)
    (h : mapFind (l.foldl (fun m proc => mapAssign m proc.pid proc) m0) pid = some q) :
    (q ∈ l ∧ q.pid = pid) ∨ mapFind m0 pid = some q := by
  induction l generalizing m0 with
  | nil => exact Or.inr h
  | cons p rest ih =>
    rw [List.foldl_cons] at h
    rcases ih _ h with ⟨hmem, hpid⟩ | h'
    · exact Or.inl ⟨List.mem_cons_of_mem _ hmem, hpid⟩
    · rw [mapFind_mapAssign] at h'
      by_cases hk : pid = p.pid
      · rw [if_pos hk] at h'
        injection h' with h'
        exact Or.inl ⟨by rw [← h']; exact List.mem_cons_self _ _, by rw [← h', hk]⟩
      · rw [if_neg hk] at h'
        exact Or.inr h'

theorem mapFind_rebuild_none (l : List ProcessInfo) (m0 : List (Int × ProcessInfo)) (pid : Int)
    (h : ∀ p ∈ l, p.pid ≠ pid) :
    mapFind (l.foldl (fun m proc => mapAssign m proc.pid proc) m0) pid = mapFind m0 pid := by
  induction l generalizing m0 with
  | nil => rfl
  | cons p rest ih =>
    rw [List.foldl_cons, ih _ (fun p' h' => h p' (List.mem_cons_of_mem _ h')), mapFind_mapAssign,
      if_neg (fun hk => h p (List.mem_cons_self _ _) hk.symm)]

theorem mapFind_rebuild_isSome (l : List ProcessInfo) (m0 : List (Int × ProcessInfo)) :
    ∀ p ∈ l,
      (mapFind (l.foldl (fun m proc => mapAssign m proc.pid proc) m0) p.pid).isSome = true := by
  induction l generalizing m0 with
  | nil =>
    intro p h
    cases h
  | cons x rest ih =>
    intro p h
    rw [List.foldl_cons]
    by_cases hpid : ∃ y ∈ rest, y.pid = p.pid
    · obtain ⟨y, hy, hyp⟩ := hpid
      rw [← hyp]
      exact ih _ y hy
    · have hx : p = x := by
        rcases List.mem_cons.mp h with h' | h'
        · exact h'
        · exact absurd ⟨p, h', rfl⟩ hpid
      rw [mapFind_rebuild_none rest _ p.pid (fun y hy hyp => hpid ⟨y, hy, hyp⟩),
        mapFind_mapAssign, hx, if_pos rfl]
      rfl

theorem calculateProcessCpuPercent_congr (s t : SystemInfo) (a b previous : ProcessInfo)
    (htotal : s.prev_total_time = t.prev_total_time) (hcores : s.cpu_cores = t.cpu_cores)
    (hutime : a.utime = b.utime) (hstime : a.stime = b.stime) :
    calculateProcessCpuPercent s a previous = calculateProcessCpuPercent t b previous := by
  unfold calculateProcessCpuPercent cpuCores
  rw [htotal, hcores, hutime, hstime]

/-- A pushed record went through `parseStatFields`. -/
theorem readProcessEntry_parse {s : SystemInfo} {fs : ProcFS} {e : ProcEntry} {p : ProcessInfo}
    (h : readProcessEntry s fs e = .pushed p) :
    ∃ pid name fields, parseStatFields s fs e pid name fields = .pushed p := by
  unfold readProcessEntry at h
  split at h
  · cases h
  · split at h
    · cases h
    · split at h
      · cases h
      · rename_i pid hpid
        split at h
        · cases h
        · split at h
          · simp only at h
            split at h
            · exact ⟨_, _, _, h⟩
            · cases h
          · cases h

/-- Every process a cycle read was pushed by `parseStatFields`, which ran on the state the four
counter readers left. -/
theorem mem_parsedInCycle_parse {fs : ProcFS} {s : SystemInfo} {p : ProcessInfo}
    (h : p ∈ parsedInCycle fs s) :
    ∃ e pid name fields,
      parseStatFields (readNetworkStats fs (readLoadAverage fs
        (readMemoryStats fs (readCpuStats fs s)))) fs e pid name fields = .pushed p := by
  obtain ⟨e, _, he⟩ := mem_readProcesses h
  obtain ⟨pid, name, fields, hparse⟩ := readProcessEntry_parse he
  exact ⟨e, pid, name, fields, hparse⟩

/-! ### The claims -/

/-- Claim C1 at its failing input. `applyProcessFilters`, which `updateStats` calls before
`sortProcesses`, cuts the filtered list to its first `max_processes` entries in enumeration
order. With sort key PID ascending, reverse off, two rows at most and three visible processes
enumerated as `3, 1, 2`, the list handed to the sort is `[3, 1]` and the cycle publishes
`[1, 3]`; the first two entries of the sorted filtered list are `[1, 2]`, and the visible
process `2`, which was dropped, ranks before the published process `3`. -/
theorem updateStats_truncates_before_sorting :
    (∀ s : SystemInfo, (applyProcessFilters s).stats.processes
      = (s.stats.processes.filter (fun proc => shouldShowProcess s.config proc)).take
          s.config.max_processes) ∧
    (parsedInCycle threeProcessFS (initial pidTwoRowsConfig 1)).map (·.pid) = [3, 1, 2] ∧
    ((parsedInCycle threeProcessFS (initial pidTwoRowsConfig 1)).filter
        (fun proc => shouldShowProcess pidTwoRowsConfig proc)).map (·.pid) = [3, 1, 2] ∧
    (applyProcessFilters (readProcesses threeProcessFS (readNetworkStats threeProcessFS
        (readLoadAverage threeProcessFS (readMemoryStats threeProcessFS
          (readCpuStats threeProcessFS (initial pidTwoRowsConfig 1))))))).stats.processes.map
      (·.pid) = [3, 1] ∧
    (updateStats threeProcessFS (initial pidTwoRowsConfig 1)).stats.processes.map (·.pid)
      = [1, 3] ∧
    (specPublished pidTwoRowsConfig
        (parsedInCycle threeProcessFS (initial pidTwoRowsConfig 1))).map (·.pid) = [1, 2] ∧
    (updateStats threeProcessFS (initial pidTwoRowsConfig 1)).stats.processes
      ≠ specPublished pidTwoRowsConfig
          (parsedInCycle threeProcessFS (initial pidTwoRowsConfig 1)) ∧
    (∃ dropped ∈ (parsedInCycle threeProcessFS (initial pidTwoRowsConfig 1)).filter
        (fun proc => shouldShowProcess pidTwoRowsConfig proc),
      ∃ shown ∈ (updateStats threeProcessFS (initial pidTwoRowsConfig 1)).stats.processes,
        dropped.pid ∉
          (updateStats threeProcessFS (initial pidTwoRowsConfig 1)).stats.processes.map (·.pid) ∧
        sortCompare pidTwoRowsConfig dropped shown = true) := by
  have hcut : ∀ s : SystemInfo, (applyProcessFilters s).stats.processes
      = (s.stats.processes.filter (fun proc => shouldShowProcess s.config proc)).take
          s.config.max_processes := by
    intro s
    unfold applyProcessFilters
    simp only
    split
    · rfl
    · rename_i hlen
      rw [List.take_of_length_le (by omega)]
  have hcode : (updateStats threeProcessFS (initial pidTwoRowsConfig 1)).stats.processes.map
      (·.pid) = [1, 3] := by decide
  have hspec : (specPublished pidTwoRowsConfig
      (parsedInCycle threeProcessFS (initial pidTwoRowsConfig 1))).map (·.pid) = [1, 2] := by
    decide
  refine ⟨hcut, by decide, by decide, by decide, hcode, hspec, ?_, by decide⟩
  intro h
  rw [h, hspec] at hcode
  exact absurd hcode (by decide)

/-- Claim C2 at its failing input. Two cycles with system totals `1000` and `1200`, four cores,
and a process whose ticks go from `100` to `150`: the system CPU percent of the second cycle,
`75`, is taken over `Δtotal = 200`, but `readCpuStats` has already stored the current total
`1200` when `calculateProcessCpuPercent` divides by `prev_total_time`, so the process gets
`100 × 50 × 4 / 1200 = 50 / 3`, below the clamp of `400`, where the claim's formula over
`Δtotal = 200` gives `100`. -/
theorem calculateProcessCpuPercent_divides_by_current_total :
    (construct cycleOneFS defaultConfig 4).prev_total_time = 1000 ∧
    (updateStats cycleTwoFS (construct cycleOneFS defaultConfig 4)).stats.cpu_percent = 75 ∧
    (construct cycleOneFS defaultConfig 4).stats.processes.map
        (fun proc => (proc.pid, proc.utime, proc.stime)) = [(3, 60, 40)] ∧
    (updateStats cycleTwoFS (construct cycleOneFS defaultConfig 4)).prev_total_time = 1200 ∧
    (updateStats cycleTwoFS (construct cycleOneFS defaultConfig 4)).stats.processes.map
        (fun proc => (proc.pid, proc.utime, proc.stime)) = [(3, 100, 50)] ∧
    (updateStats cycleTwoFS (construct cycleOneFS defaultConfig 4)).stats.processes.map
        (·.cpu_percent) = [50 / 3] ∧
    specProcessCpuPercent 150 100 4 1000 1200 = 100 := by
  refine ⟨by decide, by decide!, by decide, by decide, by decide, by decide!, ?_⟩
  norm_num [specProcessCpuPercent]

/-- Claim C3, as amended. With a stored total of `0`, `calculateCpuPercent` returns `0` whatever
the stored idle time and the current counters are. With a stored baseline whose total is not
`0`, and 64-bit counters that did not go down since it was stored, it returns
`100 × (1 − (idle − prev_idle) / (total − prev_total))` when `total ≠ prev_total` and `0` when
`total = prev_total`. -/
theorem calculateCpuPercent_formula (s : SystemInfo) (total idle : Nat) :
    (s.prev_total_time = 0 → calculateCpuPercent s total idle = 0) ∧
    (total < U64_MOD → idle < U64_MOD →
      s.prev_total_time ≤ total → s.prev_idle_time ≤ idle →
      calculateCpuPercent s total idle
        = if s.prev_total_time = 0 then 0
          else specCpuPercent s.prev_total_time s.prev_idle_time total idle) := by
  constructor
  · intro hprev
    unfold calculateCpuPercent
    rw [if_pos hprev]
  · intro ht hi htotal hidle
    unfold calculateCpuPercent specCpuPercent
    by_cases hprev : s.prev_total_time = 0
    · simp [hprev]
    · rw [if_neg hprev, if_neg hprev]
      simp only [sub64_of_le htotal ht, sub64_of_le hidle hi]
      by_cases h : total = s.prev_total_time
      · simp [h]
      · have hne : total - s.prev_total_time ≠ 0 := by omega
        rw [if_neg hne, if_neg h, Nat.cast_sub htotal, Nat.cast_sub hidle]

/-- Witness of C3: the baseline `(1000, 800)` followed by `(1200, 850)` gives `75`, and the
baseline `(0, 800)` followed by `(1200, 700)`, whose idle time went down, gives `0`. -/
theorem calculateCpuPercent_formula_witness :
    (1200 < U64_MOD ∧ 850 < U64_MOD ∧
      (stateWithBaseline 1000 800).prev_total_time ≤ 1200 ∧
      (stateWithBaseline 1000 800).prev_idle_time ≤ 850) ∧
    calculateCpuPercent (stateWithBaseline 1000 800) 1200 850 = 75 ∧
    ((stateWithBaseline 0 800).prev_total_time = 0 ∧
      calculateCpuPercent (stateWithBaseline 0 800) 1200 700 = 0) := by
  refine ⟨by decide, ?_, rfl,
    (calculateCpuPercent_formula (stateWithBaseline 0 800) 1200 700).1 rfl⟩
  rw [(calculateCpuPercent_formula (stateWithBaseline 1000 800) 1200 850).2
    (by decide) (by decide) (by decide) (by decide)]
  norm_num [specCpuPercent, stateWithBaseline, initial]

/-- Counterexample to C3 as stated. A cycle that reads an all-zero CPU line stores the baseline
`(0, 0)`; for the next reading `(200, 50)` the formula of the claim gives `75`, and
`calculateCpuPercent` returns `0`. -/
theorem calculateCpuPercent_zero_baseline_counterexample :
    ((readCpuStats zeroCpuFS (initial defaultConfig 1)).prev_total_time = 0 ∧
      (readCpuStats zeroCpuFS (initial defaultConfig 1)).prev_idle_time = 0) ∧
    calculateCpuPercent (readCpuStats zeroCpuFS (initial defaultConfig 1)) 200 50 = 0 ∧
    specCpuPercent 0 0 200 50 = 75 ∧
    calculateCpuPercent (readCpuStats zeroCpuFS (initial defaultConfig 1)) 200 50
      ≠ specCpuPercent 0 0 200 50 := by
  have h0 : (readCpuStats zeroCpuFS (initial defaultConfig 1)).prev_total_time = 0 := by decide
  have hc : calculateCpuPercent (readCpuStats zeroCpuFS (initial defaultConfig 1)) 200 50 = 0 := by
    unfold calculateCpuPercent
    rw [if_pos h0]
  have hs : specCpuPercent 0 0 200 50 = 75 := by norm_num [specCpuPercent]
  refine ⟨⟨h0, by decide⟩, hc, hs, ?_⟩
  rw [hc, hs]
  norm_num

/-- Claim C4 at its failing input. After a cycle that stored the baseline `(1000, 800)`, a CPU
line with total `1200` and idle + iowait `700` makes `readCpuStats` store a CPU percent of
`100 × (1 − (2 ^ 64 − 100) / 200)`, which is below `0`. -/
theorem readCpuStats_percent_below_zero :
    ((readCpuStats firstCpuFS (initial defaultConfig 1)).prev_total_time = 1000 ∧
      (readCpuStats firstCpuFS (initial defaultConfig 1)).prev_idle_time = 800) ∧
    ((readCpuStats secondCpuFS (readCpuStats firstCpuFS (initial defaultConfig 1))).prev_total_time
        = 1200 ∧
      (readCpuStats secondCpuFS (readCpuStats firstCpuFS (initial defaultConfig 1))).prev_idle_time
        = 700) ∧
    (readCpuStats secondCpuFS (readCpuStats firstCpuFS (initial defaultConfig 1))).stats.cpu_percent
      = -9223372036854775658 ∧
    (readCpuStats secondCpuFS (readCpuStats firstCpuFS (initial defaultConfig 1))).stats.cpu_percent
      < 0 := by
  have hv : (readCpuStats secondCpuFS
      (readCpuStats firstCpuFS (initial defaultConfig 1))).stats.cpu_percent
      = calculateCpuPercent (stateWithBaseline 1000 800) 1200 700 := by decide!
  have hq : calculateCpuPercent (stateWithBaseline 1000 800) 1200 700
      = -9223372036854775658 := by
    norm_num [calculateCpuPercent, stateWithBaseline, initial, sub64, U64_MOD]
  refine ⟨by decide, by decide, ?_, ?_⟩
  · rw [hv, hq]
  · rw [hv, hq]
    norm_num

/-- Claim C5. For every current and previous `ProcessInfo`, every `prev_total_time` and every
core count, `calculateProcessCpuPercent` returns a value in `[0, 100 × coreCount]`, where
`coreCount` is `cpu_cores` itself when that is at least `1`; the same holds for the value
`readProcesses` assigns with or without a stored entry, hence for every process of the list it
builds and of the list `updateStats` publishes. -/
theorem processCpuPercent_bounded (fs : ProcFS) (s : SystemInfo)
    (current previous : ProcessInfo) :
    (0 ≤ calculateProcessCpuPercent s current previous ∧
      calculateProcessCpuPercent s current previous ≤ 100 * (cpuCores s : ℚ)) ∧
    (1 ≤ cpuCores s ∧ (1 ≤ s.cpu_cores → cpuCores s = s.cpu_cores)) ∧
    (∀ proc, 0 ≤ (assignCpuPercent s proc).cpu_percent ∧
      (assignCpuPercent s proc).cpu_percent ≤ 100 * (cpuCores s : ℚ)) ∧
    (∀ proc ∈ (readProcesses fs s).stats.processes,
      0 ≤ proc.cpu_percent ∧ proc.cpu_percent ≤ 100 * (cpuCores s : ℚ)) ∧
    (∀ proc ∈ (updateStats fs s).stats.processes,
      0 ≤ proc.cpu_percent ∧ proc.cpu_percent ≤ 100 * (cpuCores s : ℚ)) := by
  refine ⟨calculateProcessCpuPercent_bounds s current previous, ⟨cpuCores_pos s, ?_⟩,
    assignCpuPercent_bounds s, ?_, ?_⟩
  · intro h
    unfold cpuCores
    rw [if_neg (by omega)]
  · intro proc h
    obtain ⟨e, _, he⟩ := mem_readProcesses h
    obtain ⟨q, hq, _⟩ := readProcessEntry_pushed he
    rw [hq]
    exact assignCpuPercent_bounds s q
  · intro proc h
    obtain ⟨e, _, he⟩ := mem_readProcesses (mem_updateStats h)
    obtain ⟨q, hq, _⟩ := readProcessEntry_pushed he
    rw [hq, ← (pre_reads_keep fs s).2]
    exact assignCpuPercent_bounds _ q

/-- Witness of C5: four cores and a stored total of `1000`. A process whose tick sum fell from
`100` to `10` has a wrapped tick difference and is clamped to `400 = 100 × 4`; the process of
the second cycle gets `50 / 3`. -/
theorem processCpuPercent_bounded_witness :
    1 ≤ (construct cycleOneFS defaultConfig 4).cpu_cores ∧
    cpuCores (construct cycleOneFS defaultConfig 4) = 4 ∧
    calculateProcessCpuPercent (construct cycleOneFS defaultConfig 4)
      (processWithTicks 5 5) (processWithTicks 60 40) = 400 ∧
    (updateStats cycleTwoFS (construct cycleOneFS defaultConfig 4)).stats.processes.map
      (·.cpu_percent) = [50 / 3] ∧
    (∀ proc ∈ (updateStats cycleTwoFS (construct cycleOneFS defaultConfig 4)).stats.processes,
      0 ≤ proc.cpu_percent ∧ proc.cpu_percent ≤ 100 * (4 : ℚ)) := by
  have h := processCpuPercent_bounded cycleTwoFS (construct cycleOneFS defaultConfig 4)
    (processWithTicks 5 5) (processWithTicks 60 40)
  have hcores : (1 : Int) ≤ (construct cycleOneFS defaultConfig 4).cpu_cores := by decide
  have h4 : cpuCores (construct cycleOneFS defaultConfig 4) = 4 := by
    rw [h.2.1.2 hcores]
    decide
  refine ⟨hcores, h4, by decide!, by decide!, ?_⟩
  intro proc hproc
  have hb := h.2.2.2.2 proc hproc
  rw [h4] at hb
  exact_mod_cast hb

/-- Claim C6. The first cycle of a freshly constructed `SystemInfo` stores a system CPU percent
of `0` whatever `/proc/stat` holds, as does every cycle that starts from `prev_total_time = 0`;
and in any cycle a process whose pid has no entry in `prev_processes` gets `cpu_percent = 0`,
in the list `readProcesses` builds and in the list `updateStats` publishes. -/
theorem missing_baseline_gives_zero (fs : ProcFS) (s : SystemInfo) (config : MtopConfig)
    (cpu_cores : Int) :
    (construct fs config cpu_cores).stats.cpu_percent = 0 ∧
    (s.prev_total_time = 0 →
      (readCpuStats fs s).stats.cpu_percent = 0 ∧ (updateStats fs s).stats.cpu_percent = 0) ∧
    (∀ proc, mapFind s.prev_processes proc.pid = none →
      (assignCpuPercent s proc).cpu_percent = 0) ∧
    (∀ proc ∈ (readProcesses fs s).stats.processes,
      mapFind s.prev_processes proc.pid = none → proc.cpu_percent = 0) ∧
    (∀ proc ∈ (updateStats fs s).stats.processes,
      mapFind s.prev_processes proc.pid = none → proc.cpu_percent = 0) ∧
    (∀ proc ∈ (construct fs config cpu_cores).stats.processes, proc.cpu_percent = 0) := by
  have hassign : ∀ (t : SystemInfo) (q : ProcessInfo),
      mapFind t.prev_processes (assignCpuPercent t q).pid = none →
      (assignCpuPercent t q).cpu_percent = 0 := by
    intro t q hnone
    rw [assignCpuPercent_pid] at hnone
    rcases assignCpuPercent_cpu t q with ⟨previous, hsome, _⟩ | ⟨_, h⟩
    · rw [hsome] at hnone
      cases hnone
    · exact h
  have hupdate : ∀ (t : SystemInfo) (q : ProcessInfo), q ∈ (updateStats fs t).stats.processes →
      mapFind t.prev_processes q.pid = none → q.cpu_percent = 0 := by
    intro t q h hnone
    obtain ⟨e, _, he⟩ := mem_readProcesses (mem_updateStats h)
    obtain ⟨r, hr, _⟩ := readProcessEntry_pushed he
    rw [hr] at hnone ⊢
    rw [← (pre_reads_keep fs t).1] at hnone
    exact hassign _ r hnone
  refine ⟨?_, ?_, ?_, ?_, hupdate s, ?_⟩
  · unfold construct
    rw [updateStats_cpu_percent]
    exact readCpuStats_zero_baseline fs _ rfl
  · intro h
    refine ⟨readCpuStats_zero_baseline fs s h, ?_⟩
    rw [updateStats_cpu_percent]
    exact readCpuStats_zero_baseline fs s h
  · intro proc hnone
    rcases assignCpuPercent_cpu s proc with ⟨previous, hsome, _⟩ | ⟨_, h⟩
    · rw [hsome] at hnone
      cases hnone
    · exact h
  · intro proc h hnone
    obtain ⟨e, _, he⟩ := mem_readProcesses h
    obtain ⟨r, hr, _⟩ := readProcessEntry_pushed he
    rw [hr] at hnone ⊢
    exact hassign s r hnone
  · intro proc h
    exact hupdate _ proc h rfl

/-- Witness of C6. The first cycle over a `/proc/stat` with total `1000` stores a CPU percent of
`0`; the next cycle enumerates the processes `3, 1, 2`, of which only `3` has a stored entry,
and the processes `1` and `2` get `0`. -/
theorem missing_baseline_gives_zero_witness :
    (initial defaultConfig 4).prev_total_time = 0 ∧
    (construct cycleOneFS defaultConfig 4).stats.cpu_percent = 0 ∧
    (construct cycleOneFS defaultConfig 4).prev_total_time = 1000 ∧
    (construct cycleOneFS defaultConfig 4).prev_processes.map (·.1) = [3] ∧
    (mapFind (construct cycleOneFS defaultConfig 4).prev_processes (namedProcess 1 "alpha").pid
      = none) ∧
    (assignCpuPercent (construct cycleOneFS defaultConfig 4)
      (namedProcess 1 "alpha")).cpu_percent = 0 ∧
    (updateStats threeProcessFS (construct cycleOneFS defaultConfig 4)).stats.processes.map
      (·.pid) = [2, 1, 3] ∧
    (∀ proc ∈ (updateStats threeProcessFS (construct cycleOneFS defaultConfig 4)).stats.processes,
      proc.pid ≠ 3 → proc.cpu_percent = 0) := by
  have h := missing_baseline_gives_zero threeProcessFS (construct cycleOneFS defaultConfig 4)
    defaultConfig 4
  have h1 := (missing_baseline_gives_zero cycleOneFS (initial defaultConfig 4) defaultConfig 4).1
  have hnone : mapFind (construct cycleOneFS defaultConfig 4).prev_processes
      (namedProcess 1 "alpha").pid = none := by decide!
  refine ⟨rfl, h1, by decide, by decide, hnone, h.2.2.1 _ hnone, by decide, ?_⟩
  intro proc hproc hpid
  apply h.2.2.2.2.1 proc hproc
  have hkeys : (construct cycleOneFS defaultConfig 4).prev_processes.map (·.1) = [3] := by decide
  unfold mapFind
  rw [Option.map_eq_none', List.find?_eq_none]
  intro x hx
  have hx3 : x.1 ∈ (construct cycleOneFS defaultConfig 4).prev_processes.map (·.1) :=
    List.mem_map_of_mem _ hx
  rw [hkeys, List.mem_singleton] at hx3
  simp only [beq_iff_eq, hx3]
  exact fun h3 => hpid h3.symm

/-- Claim C7. For every process list with pairwise distinct pids, `sortProcesses` with sort key
PID returns a permutation of its input, ordered by strictly increasing pid when `reverse_sort`
is off and by strictly decreasing pid when it is on. -/
theorem sortProcesses_by_pid (s : SystemInfo) (hkey : s.config.sort_by = SortBy.PID)
    (hdistinct : (s.stats.processes.map (·.pid)).Nodup) :
    (sortProcesses s).stats.processes.Perm s.stats.processes ∧
    (s.config.reverse_sort = false →
      (sortProcesses s).stats.processes.Pairwise (fun a b => a.pid < b.pid)) ∧
    (s.config.reverse_sort = true →
      (sortProcesses s).stats.processes.Pairwise (fun a b => b.pid < a.pid)) := by
  have hperm : (sortProcesses s).stats.processes.Perm s.stats.processes :=
    stdSort_perm _ _
  have hnodup : ((sortProcesses s).stats.processes.map (·.pid)).Nodup :=
    ((hperm.map _).nodup_iff).mpr hdistinct
  have hne : (sortProcesses s).stats.processes.Pairwise (fun a b => a.pid ≠ b.pid) := by
    simpa [List.Nodup, List.pairwise_map] using hnodup
  refine ⟨hperm, ?_, ?_⟩
  · intro hrev
    have hle : (sortProcesses s).stats.processes.Pairwise (fun a b => a.pid ≤ b.pid) := by
      apply stdSort_pairwise (sortCompare s.config) (fun a b => a.pid ≤ b.pid)
      · intro a b c hab hbc
        exact le_trans hab hbc
      · intro a b h
        simp [sortCompare, sortResult, hkey, hrev] at h
        exact le_of_lt h
      · intro a b h
        simp [sortCompare, sortResult, hkey, hrev] at h
        exact h
    exact (hle.and hne).imp (fun h => lt_of_le_of_ne h.1 h.2)
  · intro hrev
    have hle : (sortProcesses s).stats.processes.Pairwise (fun a b => b.pid ≤ a.pid) := by
      apply stdSort_pairwise (sortCompare s.config) (fun a b => b.pid ≤ a.pid)
      · intro a b c hab hbc
        exact le_trans hbc hab
      · intro a b h
        simp [sortCompare, sortResult, hkey, hrev] at h
        exact h
      · intro a b h
        simp [sortCompare, sortResult, hkey, hrev] at h
        exact le_of_lt h
    exact (hle.and hne).imp (fun h => lt_of_le_of_ne h.1 (Ne.symm h.2))

/-- Witness of C7: the pids `[3, 1, 2]` are sorted to `[1, 2, 3]` with the reverse flag off and
to `[3, 2, 1]` with the reverse flag on. -/
theorem sortProcesses_by_pid_witness :
    ((stateWithProcesses pidTwoRowsConfig
        [namedProcess 3 "gamma", namedProcess 1 "alpha", namedProcess 2 "beta"]).config.sort_by
        = SortBy.PID ∧
      ((stateWithProcesses pidTwoRowsConfig
        [namedProcess 3 "gamma", namedProcess 1 "alpha", namedProcess 2 "beta"]).stats.processes.map
        (·.pid)).Nodup) ∧
    (sortProcesses (stateWithProcesses pidTwoRowsConfig
        [namedProcess 3 "gamma", namedProcess 1 "alpha", namedProcess 2 "beta"])).stats.processes.map
      (·.pid) = [1, 2, 3] ∧
    (sortProcesses (stateWithProcesses pidTwoRowsConfig
        [namedProcess 3 "gamma", namedProcess 1 "alpha",
          namedProcess 2 "beta"])).stats.processes.Pairwise (fun a b => a.pid < b.pid) ∧
    (sortProcesses (stateWithProcesses pidReverseConfig
        [namedProcess 3 "gamma", namedProcess 1 "alpha", namedProcess 2 "beta"])).stats.processes.map
      (·.pid) = [3, 2, 1] ∧
    (sortProcesses (stateWithProcesses pidReverseConfig
        [namedProcess 3 "gamma", namedProcess 1 "alpha",
          namedProcess 2 "beta"])).stats.processes.Pairwise (fun a b => b.pid < a.pid) := by
  have hup := sortProcesses_by_pid (stateWithProcesses pidTwoRowsConfig
    [namedProcess 3 "gamma", namedProcess 1 "alpha", namedProcess 2 "beta"]) rfl (by decide)
  have hdown := sortProcesses_by_pid (stateWithProcesses pidReverseConfig
    [namedProcess 3 "gamma", namedProcess 1 "alpha", namedProcess 2 "beta"]) rfl (by decide)
  exact ⟨⟨rfl, by decide⟩, by decide, hup.2.1 rfl, by decide, hdown.2.2 rfl⟩

/-- Claim C8. When `max_processes` is at least the length of the process list,
`applyProcessFilters` keeps, in their original order, exactly the processes that are visible in
the sense of the specification: not a kernel thread or kernel threads shown, no hide string
contained in the name, and the owning user in the allow-list unless that list is empty. -/
theorem applyProcessFilters_visible (s : SystemInfo)
    (hmax : s.stats.processes.length ≤ s.config.max_processes) :
    (applyProcessFilters s).stats.processes
      = s.stats.processes.filter (fun proc => decide (specVisible s.config proc)) := by
  have hfun : (fun proc => shouldShowProcess s.config proc)
      = (fun proc => decide (specVisible s.config proc)) := by
    funext proc
    rw [Bool.eq_iff_iff, shouldShowProcess_iff]
    simp
  have hlen : ¬ (s.stats.processes.filter (fun proc => shouldShowProcess s.config proc)).length
      > s.config.max_processes := by
    have := List.length_filter_le (fun proc => shouldShowProcess s.config proc) s.stats.processes
    omega
  unfold applyProcessFilters
  simp only [if_neg hlen]
  rw [hfun]

/-- Witness of C8: with the hide list `["chrome"]`, the processes named `chrome` and
`google-chrome-stable` are removed; `Chrome` and `bash`, which do not contain `chrome`, stay,
in their order. -/
theorem applyProcessFilters_visible_witness :
    (stateWithProcesses hideChromeConfig
        [namedProcess 1 "chrome", namedProcess 2 "google-chrome-stable", namedProcess 3 "Chrome",
          namedProcess 4 "bash"]).stats.processes.length
      ≤ (stateWithProcesses hideChromeConfig
        [namedProcess 1 "chrome", namedProcess 2 "google-chrome-stable", namedProcess 3 "Chrome",
          namedProcess 4 "bash"]).config.max_processes ∧
    (applyProcessFilters (stateWithProcesses hideChromeConfig
        [namedProcess 1 "chrome", namedProcess 2 "google-chrome-stable", namedProcess 3 "Chrome",
          namedProcess 4 "bash"])).stats.processes.map (·.name) = ["Chrome", "bash"] := by
  have hmax : (stateWithProcesses hideChromeConfig
        [namedProcess 1 "chrome", namedProcess 2 "google-chrome-stable", namedProcess 3 "Chrome",
          namedProcess 4 "bash"]).stats.processes.length
      ≤ (stateWithProcesses hideChromeConfig
        [namedProcess 1 "chrome", namedProcess 2 "google-chrome-stable", namedProcess 3 "Chrome",
          namedProcess 4 "bash"]).config.max_processes := by decide
  refine ⟨hmax, ?_⟩
  rw [applyProcessFilters_visible _ hmax]
  decide

/-- Claim C9 at its failing input. A record with 22 tokens whose token 1 is `x` makes
`std::stoi` throw; the only handler encloses the whole loop, so the well-formed record
enumerated after it is lost with it: the process list is empty and `process_count` is `0`.
Enumerated before the malformed record, the same well-formed record is kept. -/
theorem readProcesses_malformed_record_ends_loop :
    readFields ("S x 1 1 0 -1 0 0 0 0 0 10 5 0 0 20 0 1 0 1 1000 50").data
      = (["S", "x", "1", "1", "0", "-1", "0", "0", "0", "0", "0", "10", "5", "0", "0", "20",
          "0", "1", "0", "1", "1000", "50"] : List String).map String.data ∧
    (readProcesses malformedFirstFS (initial defaultConfig 1)).stats.processes = [] ∧
    (readProcesses malformedFirstFS (initial defaultConfig 1)).stats.process_count = 0 ∧
    (updateStats malformedFirstFS (initial defaultConfig 1)).stats.processes = [] ∧
    (readProcesses malformedLastFS (initial defaultConfig 1)).stats.processes.map (·.pid) = [2] ∧
    (readProcesses malformedLastFS (initial defaultConfig 1)).stats.process_count = 1 := by
  refine ⟨by decide, by decide!, by decide, by decide!, by decide, by decide⟩

/-- Claim C10. When the numeric tokens of every enumerated entry parse, a stat record with
fewer than 22 post-name tokens is skipped, the pid of every record with at least 22 tokens is in
the process list `readProcesses` builds, that list holds, in enumeration order, the pids of
exactly the records with at least 22 tokens, and `process_count` is the number of stat records
minus the number of records with fewer than 22 tokens. -/
theorem readProcesses_drops_short_records (fs : ProcFS) (s : SystemInfo)
    (hparse : ∀ e ∈ fs.proc, numericTokensParse e = true) :
    (∀ e ∈ fs.proc, isShortRecord e = true → readProcessEntry s fs e = .skipped) ∧
    (∀ e ∈ fs.proc, isFullRecord e = true →
      ∃ pid, stoi e.filename.data = some pid ∧
        pid ∈ (readProcesses fs s).stats.processes.map (·.pid)) ∧
    (readProcesses fs s).stats.processes.map (·.pid)
      = (fs.proc.filter isFullRecord).filterMap (fun e => stoi e.filename.data) ∧
    (readProcesses fs s).stats.process_count
      = ((fs.proc.filter isStatRecord).length : Int) - ((fs.proc.filter isShortRecord).length : Int)
    := by
  have h := readProcessesLoop_of_parse s fs fs.proc ([], 0) hparse
  have hcount := length_filter_isStatRecord fs.proc
  have hpids : (readProcesses fs s).stats.processes.map (·.pid)
      = (fs.proc.filter isFullRecord).filterMap (fun e => stoi e.filename.data) := by
    simpa [readProcesses] using h.1
  refine ⟨?_, ?_, hpids, ?_⟩
  · intro e he hshort
    apply (readProcessEntry_of_parse s fs e (hparse e he)).2
    unfold isShortRecord at hshort
    unfold isFullRecord
    split at hshort
    · rename_i tokens htokens
      have hlt : tokens.length < 22 := of_decide_eq_true hshort
      exact decide_eq_false (by omega)
    · rfl
  · intro e he hfull
    obtain ⟨p, _, hpid⟩ := (readProcessEntry_of_parse s fs e (hparse e he)).1 hfull
    refine ⟨p.pid, hpid, ?_⟩
    rw [hpids, List.mem_filterMap]
    exact ⟨e, List.mem_filter.mpr ⟨he, hfull⟩, hpid⟩
  · have h2 : (readProcesses fs s).stats.process_count
        = (0 : Int) + ((fs.proc.filter isFullRecord).length : Int) := h.2
    rw [h2, hcount]
    push_cast
    ring

/-- Witness of C10: of five entries, three are stat records and one of these has seven tokens;
the process list holds the pids `3` and `2` of the two full records and `process_count` is
`3 − 1 = 2`. -/
theorem readProcesses_drops_short_records_witness :
    (∀ e ∈ mixedFS.proc, numericTokensParse e = true) ∧
    (mixedFS.proc.map (fun e => (isStatRecord e, isShortRecord e))
      = [(true, false), (true, true), (false, false), (false, false), (true, false)]) ∧
    (readProcesses mixedFS (initial defaultConfig 1)).stats.processes.map (·.pid) = [3, 2] ∧
    (readProcesses mixedFS (initial defaultConfig 1)).stats.process_count = 2 := by
  have hparse : ∀ e ∈ mixedFS.proc, numericTokensParse e = true := by decide
  have h := readProcesses_drops_short_records mixedFS (initial defaultConfig 1) hparse
  refine ⟨hparse, by decide, ?_, ?_⟩
  · rw [h.2.2.1]
    decide
  · rw [h.2.2.2]
    decide

/-- Claim C11, as amended. For every stat line `pre ( mid ) post` whose `pre` holds no `(` and
whose `post` holds no `)`, with at least 22 tokens in `post` of which tokens 1, 11, 12, 19 and 21
convert, the `ProcessInfo` that `readProcesses` builds has `name = mid`, the whole text between
the first `(` and the last `)`; `state` is token 0, `utime`, `stime` and `start_time` are tokens
11, 12 and 19, and `memory_kb` is `4 × token 21` reduced modulo `2 ^ 64`, which is `4 × token 21`
itself when token 21 is below `2 ^ 62`. -/
theorem readProcessEntry_fields (s : SystemInfo) (fs : ProcFS) (e : ProcEntry)
    (pre mid post : List Char) (pid ppid : Int) (utime stime start_time rss : Nat)
    (hdir : e.is_directory = true) (hdigits : e.filename.data.all isdigit = true)
    (hpid : stoi e.filename.data = some pid)
    (hstat : e.stat = some (String.mk (pre ++ '(' :: (mid ++ ')' :: post))))
    (hpre : '(' ∉ pre) (hpost : ')' ∉ post)
    (hsize : (pre ++ '(' :: (mid ++ ')' :: post)).length < U64_MOD)
    (h22 : 22 ≤ (readFields post).length)
    (h1 : stoi ((readFields post).getD 1 []) = some ppid)
    (h11 : stoull ((readFields post).getD 11 []) = some utime)
    (h12 : stoull ((readFields post).getD 12 []) = some stime)
    (h19 : stoull ((readFields post).getD 19 []) = some start_time)
    (h21 : stoull ((readFields post).getD 21 []) = some rss) :
    ∃ p, readProcessEntry s fs e = .pushed p ∧ p.pid = pid ∧
      p.name = String.mk mid ∧ p.state = String.mk ((readFields post).getD 0 []) ∧
      p.utime = utime ∧ p.stime = stime ∧ p.start_time = start_time ∧
      p.memory_kb = (4 * rss) % U64_MOD ∧
      (rss < 4611686018427387904 → p.memory_kb = 4 * rss) := by
  have hfirst : findChar '(' (pre ++ '(' :: (mid ++ ')' :: post)) = some pre.length :=
    findChar_append _ _ _ hpre
  have hlast : rfindChar ')' (pre ++ '(' :: (mid ++ ')' :: post))
      = some (pre.length + 1 + mid.length) := by
    have h := rfindChar_append ')' (pre ++ '(' :: mid) post hpost
    simp only [List.append_assoc, List.cons_append, List.length_append, List.length_cons] at h
    rw [h]
    congr 1
    omega
  have hlen : pre.length + 1 + mid.length < U64_MOD := by
    simp only [List.length_append, List.length_cons] at hsize
    omega
  have hcount : sub64 (sub64 (pre.length + 1 + mid.length) pre.length) 1 = mid.length := by
    rw [sub64_of_le (by omega) hlen, sub64_of_le (by omega) (by omega)]
    omega
  have hname : substr (pre ++ '(' :: (mid ++ ')' :: post)) (pre.length + 1) mid.length = mid := by
    unfold substr
    have hdrop : (pre ++ '(' :: (mid ++ ')' :: post)).drop (pre.length + 1)
        = mid ++ ')' :: post := by
      rw [show pre ++ '(' :: (mid ++ ')' :: post) = (pre ++ ['(']) ++ (mid ++ ')' :: post) by simp]
      exact List.drop_left' (by simp)
    rw [hdrop]
    exact List.take_left' rfl
  have hremaining : (pre ++ '(' :: (mid ++ ')' :: post)).drop (pre.length + 1 + mid.length + 1)
      = post := by
    rw [show pre ++ '(' :: (mid ++ ')' :: post) = (pre ++ '(' :: mid ++ [')']) ++ post by simp]
    exact List.drop_left' (by simp; omega)
  have hentry : readProcessEntry s fs e
      = parseStatFields s fs e pid mid (readFields post) := by
    unfold readProcessEntry
    simp only [hdir, hdigits, hpid, hstat, hfirst, hlast, hcount, hname, hremaining, h22,
      Bool.not_true, Bool.false_eq_true, if_false, if_true]
  rw [hentry]
  unfold parseStatFields
  simp only [h1, h11, h12, h19, h21]
  obtain ⟨hn, hst, hu, hsy, hstart, hmem⟩ := assignCpuPercent_fields s
    { pid := pid, name := String.mk mid, state := String.mk ((readFields post).getD 0 []),
      cpu_percent := 0, memory_kb := mul64 rss 4, user := getUserName fs (readUid e.status),
      uid := readUid e.status,
      is_kernel_thread := ppid == 2 || (mid.head? == some '[' && mid.getLast? == some ']'),
      utime := utime, stime := stime, start_time := start_time }
  refine ⟨_, rfl, assignCpuPercent_pid _ _, hn, hst, hu, hsy, hstart, ?_, ?_⟩
  · rw [hmem]
    simp only [mul64, Nat.mul_comm]
  · intro hsmall
    rw [hmem]
    simp only [mul64]
    unfold U64_MOD
    omega

/-- Witness of C11: the name `Web (Content) x`, with parentheses and spaces of its own, is kept
whole; state `R`, ticks `60` and `40`, start tick `555`, and `25` pages make `100` kibibytes. -/
theorem readProcessEntry_fields_witness :
    (∃ p, readProcessEntry (initial defaultConfig 1) emptyFS parenNameEntry = .pushed p ∧
      p.pid = 7 ∧ p.name = "Web (Content) x" ∧ p.state = "R" ∧ p.utime = 60 ∧ p.stime = 40 ∧
      p.start_time = 555 ∧ p.memory_kb = 100) ∧
    (readProcesses { emptyFS with proc := [parenNameEntry] } (initial defaultConfig 1)
      ).stats.processes.map
        (fun p => (p.name, p.state, p.utime, p.stime, p.start_time, p.memory_kb))
      = [("Web (Content) x", "R", 60, 40, 555, 100)] := by
  obtain ⟨p, hp, hpid, hname, hstate, hu, hs, hst, _, hmem⟩ :=
    readProcessEntry_fields (initial defaultConfig 1) emptyFS parenNameEntry
      "7 ".data "Web (Content) x".data
      " R 1 7 7 0 -1 0 0 0 0 0 60 40 0 0 20 0 1 0 555 1000 25 9".data 7 1 60 40 555 25
      (by decide) (by decide) (by decide) (by decide) (by decide) (by decide) (by decide)
      (by decide) (by decide) (by decide) (by decide) (by decide) (by decide)
  refine ⟨⟨p, hp, hpid, hname, ?_, hu, hs, hst, hmem (by decide)⟩, by decide⟩
  rw [hstate]
  decide

/-- Counterexample to C11 as stated. With token 21 equal to `2 ^ 62` the product `rss * 4` of
the source wraps around: `memory_kb` is `0`, not `4 × token 21 = 2 ^ 64`. -/
theorem readProcessEntry_memory_wraps_counterexample :
    stoull ((readFields
        " S 1 8 8 0 -1 0 0 0 0 0 60 40 0 0 20 0 1 0 555 1000 4611686018427387904".data).getD 21 [])
      = some 4611686018427387904 ∧
    (readProcesses { emptyFS with proc := [hugeRssEntry] } (initial defaultConfig 1)
      ).stats.processes.map (fun p => (p.pid, p.memory_kb)) = [(8, 0)] ∧
    (0 : Nat) ≠ 4 * 4611686018427387904 := by
  decide

/-- Claim C12. For every `/proc/net/dev` text, `readNetworkStats` ignores the first two lines
and keeps, in line order, what the later lines contribute in the sense of the specification
(`specNetworkLine`): the first token with a trailing `:` stripped names the interface, an empty
name and `lo` contribute nothing, and a line counts when at least 10 unsigned integer fields
follow the name. For a line made of a name and well-formed number tokens, the interface is added
exactly when there are at least 10 tokens, with `rx_bytes`, `rx_packets`, `tx_bytes` and
`tx_packets` the numbers of tokens 0, 1, 8 and 9. -/
theorem readNetworkStats_interfaces (fs : ProcFS) (s : SystemInfo) (ws0 w tail : List Char)
    (ts : List (List Char × List Char))
    (hws0 : ws0.all isspace = true) (hw : w ≠ [])
    (hword : w.all (fun c => !isspace c) = true)
    (hts : ∀ t ∈ ts, wellFormedToken t = true) (htail : tail.all isspace = true) :
    ((readNetworkStats fs s).stats.network_interfaces
      = match fs.net_dev with
        | none => []
        | some lines => (lines.drop 2).filterMap specNetworkLine) ∧
    (networkLine (String.mk (ws0 ++ (w ++ (numberTokens ts ++ tail))))
      = if stripColon w = [] ∨ stripColon w = "lo".data then none
        else if 10 ≤ ts.length then
          some { interface := String.mk (stripColon w)
                 rx_bytes := (ts.map tokenValue).getD 0 0
                 rx_packets := (ts.map tokenValue).getD 1 0
                 tx_bytes := (ts.map tokenValue).getD 8 0
                 tx_packets := (ts.map tokenValue).getD 9 0 }
        else none) := by
  constructor
  · have hfun : networkLine = specNetworkLine := funext networkLine_eq_spec
    unfold readNetworkStats
    rw [hfun]
    cases hnet : fs.net_dev with
    | none => rfl
    | some lines =>
      match lines with
      | [] => rfl
      | [_] => rfl
      | _ :: _ :: rest => rfl
  · have hsp : emptyOrHead isspace (numberTokens ts ++ tail) = true := by
      apply emptyOrHead_numberTokens isspace (fun _ h => h) ts tail hts
      cases tail with
      | nil => rfl
      | cons c cs =>
        simp only [List.all_cons, Bool.and_eq_true] at htail
        exact htail.1
    rw [networkLine_eq_spec]
    unfold specNetworkLine
    simp only [extractString_token hws0 hw hword hsp,
      unsignedFields_numberTokens ts tail hts htail, List.length_map]

/-- Witness of C12: after two header lines, `eth0` with sixteen fields and `eth1` with ten are
added in line order; `lo` and `wlan0`, which has nine fields, are not. -/
theorem readNetworkStats_interfaces_witness :
    (readNetworkStats networkFS (initial defaultConfig 1)).stats.network_interfaces
      = [ { interface := "eth0", rx_bytes := 1, rx_packets := 2, tx_bytes := 9, tx_packets := 10 },
          { interface := "eth1", rx_bytes := 100, rx_packets := 20, tx_bytes := 900,
            tx_packets := 80 } ] ∧
    networkLine " wlan0: 1 2 3 4 5 6 7 8 9" = none ∧
    networkLine "    lo: 1 2 3 4 5 6 7 8 9 10 11 12 13 14 15 16" = none ∧
    networkLine "  eth1: 100 20 0 0 0 0 0 0 900 80"
      = some { interface := "eth1", rx_bytes := 100, rx_packets := 20, tx_bytes := 900,
               tx_packets := 80 } := by
  have h9 := (readNetworkStats_interfaces networkFS (initial defaultConfig 1) " ".data
    "wlan0:".data [] [(" ".data, "1".data), (" ".data, "2".data), (" ".data, "3".data),
      (" ".data, "4".data), (" ".data, "5".data), (" ".data, "6".data), (" ".data, "7".data),
      (" ".data, "8".data), (" ".data, "9".data)]
    (by decide) (by decide) (by decide) (by decide) (by decide)).2
  have h10 := (readNetworkStats_interfaces networkFS (initial defaultConfig 1) "  ".data
    "eth1:".data [] [(" ".data, "100".data), (" ".data, "20".data), (" ".data, "0".data),
      (" ".data, "0".data), (" ".data, "0".data), (" ".data, "0".data), (" ".data, "0".data),
      (" ".data, "0".data), (" ".data, "900".data), (" ".data, "80".data)]
    (by decide) (by decide) (by decide) (by decide) (by decide)).2
  refine ⟨by decide, ?_, by decide, ?_⟩
  · exact h9.trans (by decide)
  · exact h10.trans (by decide)

/-- Claim C13, as amended. For every CPU-total line made of a label and eight well-formed
number tokens, `readCpuStats` computes the total as the sum of the eight fields reduced modulo
`2 ^ 64` and the idle time as the idle field plus the iowait field reduced modulo `2 ^ 64`; both
are the exact sums whenever the sum of the eight fields is below `2 ^ 64`. The two values are
stored as the next baseline, and the CPU percent of the cycle is computed from them. -/
theorem readCpuStats_totals (fs : ProcFS) (s : SystemInfo) (ws0 label tail : List Char)
    (ts : List (List Char × List Char)) (more : List String)
    (hfile : fs.stat = some (String.mk (ws0 ++ (label ++ (numberTokens ts ++ tail))) :: more))
    (hws0 : ws0.all isspace = true) (hlabel : label ≠ [])
    (hword : label.all (fun c => !isspace c) = true)
    (hts : ∀ t ∈ ts, wellFormedToken t = true) (hlen : ts.length = 8)
    (htail : emptyOrHead (fun c => !isdigit c) tail = true) :
    (readCpuStats fs s).prev_total_time = (ts.map tokenValue).sum % U64_MOD ∧
    (readCpuStats fs s).prev_idle_time
      = ((ts.map tokenValue).getD 3 0 + (ts.map tokenValue).getD 4 0) % U64_MOD ∧
    ((ts.map tokenValue).sum < U64_MOD →
      (readCpuStats fs s).prev_total_time = (ts.map tokenValue).sum ∧
      (readCpuStats fs s).prev_idle_time
        = (ts.map tokenValue).getD 3 0 + (ts.map tokenValue).getD 4 0) ∧
    (readCpuStats fs s).stats.cpu_percent
      = calculateCpuPercent s ((ts.map tokenValue).sum % U64_MOD)
          (((ts.map tokenValue).getD 3 0 + (ts.map tokenValue).getD 4 0) % U64_MOD) := by
  have hparse := parseCpuLine_tokens ws0 label tail ts hws0 hlabel hword hts hlen htail
  match ts, hlen, hparse with
  | [t1, t2, t3, t4, t5, t6, t7, t8], _, hparse =>
    have htotal : (readCpuStats fs s).prev_total_time
        = ([t1, t2, t3, t4, t5, t6, t7, t8].map tokenValue).sum % U64_MOD := by
      unfold readCpuStats
      simp only [hfile, hparse, List.map_cons, List.map_nil, add64_chain, List.sum_cons,
        List.sum_nil]
      congr 1
      omega
    have hidle : (readCpuStats fs s).prev_idle_time
        = (([t1, t2, t3, t4, t5, t6, t7, t8].map tokenValue).getD 3 0
            + ([t1, t2, t3, t4, t5, t6, t7, t8].map tokenValue).getD 4 0) % U64_MOD := by
      unfold readCpuStats
      simp only [hfile, hparse, List.map_cons, List.map_nil]
      rfl
    have hcpu : (readCpuStats fs s).stats.cpu_percent
        = calculateCpuPercent s
            (([t1, t2, t3, t4, t5, t6, t7, t8].map tokenValue).sum % U64_MOD)
            ((([t1, t2, t3, t4, t5, t6, t7, t8].map tokenValue).getD 3 0
              + ([t1, t2, t3, t4, t5, t6, t7, t8].map tokenValue).getD 4 0) % U64_MOD) := by
      unfold readCpuStats
      simp only [hfile, hparse, List.map_cons, List.map_nil, add64_chain, List.sum_cons,
        List.sum_nil, setCpuPercent]
      congr 2
      omega
    refine ⟨htotal, hidle, ?_, hcpu⟩
    intro hsum
    rw [htotal, hidle, Nat.mod_eq_of_lt hsum]
    refine ⟨rfl, Nat.mod_eq_of_lt ?_⟩
    simp only [List.map_cons, List.map_nil, List.sum_cons, List.sum_nil, List.getD_cons_succ,
      List.getD_cons_zero] at hsum ⊢
    omega

/-- Witness of C13: the line `cpu  200 0 0 500 300 0 0 0 0 0` gives the baseline
`(1000, 800)`. -/
theorem readCpuStats_totals_witness :
    (readCpuStats firstCpuFS (initial defaultConfig 1)).prev_total_time = 1000 ∧
    (readCpuStats firstCpuFS (initial defaultConfig 1)).prev_idle_time = 800 := by
  have h := readCpuStats_totals firstCpuFS (initial defaultConfig 1) [] "cpu".data " 0 0".data
    [("  ".data, "200".data), (" ".data, "0".data), (" ".data, "0".data), (" ".data, "500".data),
     (" ".data, "300".data), (" ".data, "0".data), (" ".data, "0".data), (" ".data, "0".data)]
    [] (by decide) (by decide) (by decide) (by decide) (by decide) (by decide) (by decide)
  have hsum : ([("  ".data, "200".data), (" ".data, "0".data), (" ".data, "0".data),
      (" ".data, "500".data), (" ".data, "300".data), (" ".data, "0".data), (" ".data, "0".data),
      (" ".data, "0".data)].map tokenValue).sum < U64_MOD := by decide
  have h3 := h.2.2.1 hsum
  rw [h3.1, h3.2]
  decide

/-- Counterexample to C13 as stated. With an idle field of `2 ^ 64 − 1` and an iowait field of
`1`, the eight fields add up to `2 ^ 64` and so do idle and iowait, but the stored total and the
stored idle time are both `0`. -/
theorem readCpuStats_sum_wraps_counterexample :
    parseCpuLine "cpu 0 0 0 18446744073709551615 1 0 0 0".data
      = some [0, 0, 0, 18446744073709551615, 1, 0, 0, 0] ∧
    (readCpuStats overflowCpuFS (initial defaultConfig 1)).prev_total_time = 0 ∧
    (readCpuStats overflowCpuFS (initial defaultConfig 1)).prev_idle_time = 0 ∧
    (readCpuStats overflowCpuFS (initial defaultConfig 1)).prev_total_time
      ≠ [0, 0, 0, 18446744073709551615, 1, 0, 0, 0].sum ∧
    (readCpuStats overflowCpuFS (initial defaultConfig 1)).prev_idle_time
      ≠ 18446744073709551615 + 1 := by
  decide

/-- Claim C14, as amended. For every meminfo text in which each of the keys `MemTotal`,
`MemAvailable` and `MemFree` occurs at most once, in any order, `readMemoryStats` sets
`total_memory_kb` to the `MemTotal` value (`0` if absent) and `free_memory_kb` to the
`MemAvailable` value if that is present and nonzero, and to the `MemFree` value (`0` if absent)
otherwise; `used_memory_kb` is `0` when the total is `0` and `total − free` when the total is
nonzero and the free value does not exceed it. -/
theorem readMemoryStats_values (fs : ProcFS) (s : SystemInfo) (lines : List String)
    (hfile : fs.meminfo = some lines)
    (hT : keyCount "MemTotal:".data (memoryEntries lines) ≤ 1)
    (hA : keyCount "MemAvailable:".data (memoryEntries lines) ≤ 1)
    (hF : keyCount "MemFree:".data (memoryEntries lines) ≤ 1) :
    (readMemoryStats fs s).stats.total_memory_kb
      = keyValue "MemTotal:".data (memoryEntries lines) ∧
    (readMemoryStats fs s).stats.free_memory_kb = specFreeMemory (memoryEntries lines) ∧
    (keyValue "MemTotal:".data (memoryEntries lines) = 0 →
      (readMemoryStats fs s).stats.used_memory_kb = 0) ∧
    (keyValue "MemTotal:".data (memoryEntries lines) ≠ 0 →
      specFreeMemory (memoryEntries lines) ≤ keyValue "MemTotal:".data (memoryEntries lines) →
      (readMemoryStats fs s).stats.used_memory_kb
        = keyValue "MemTotal:".data (memoryEntries lines)
          - specFreeMemory (memoryEntries lines)) := by
  have htotal : (lines.foldl memoryLine (0, 0, 0)).1
      = keyValue "MemTotal:".data (memoryEntries lines) := by
    rw [foldl_memoryLine, foldl_memoryStep_total_value _ _ hT]
    rfl
  have havail : (lines.foldl memoryLine (0, 0, 0)).2.2
      = keyValue "MemAvailable:".data (memoryEntries lines) := by
    rw [foldl_memoryLine, foldl_memoryStep_available_value _ _ hA]
    rfl
  have hfree : (if (lines.foldl memoryLine (0, 0, 0)).2.2 > 0
        then (lines.foldl memoryLine (0, 0, 0)).2.2
        else (lines.foldl memoryLine (0, 0, 0)).2.1)
      = specFreeMemory (memoryEntries lines) := by
    unfold specFreeMemory
    by_cases h0 : keyValue "MemAvailable:".data (memoryEntries lines) = 0
    · have hend : ((memoryEntries lines).foldl memoryStep (0, 0, 0)).2.2 = 0 := by
        rw [← foldl_memoryLine, havail, h0]
      rw [havail, h0, if_neg (by omega), if_neg (by simp), foldl_memoryLine,
        foldl_memoryStep_free_value _ _ hA hF rfl hend]
      rfl
    · rw [havail, if_pos (by omega), if_pos h0]
  have hstats : (readMemoryStats fs s).stats.total_memory_kb
        = keyValue "MemTotal:".data (memoryEntries lines) ∧
      (readMemoryStats fs s).stats.free_memory_kb = specFreeMemory (memoryEntries lines) ∧
      (readMemoryStats fs s).stats.used_memory_kb
        = if keyValue "MemTotal:".data (memoryEntries lines) > 0
          then sub64 (keyValue "MemTotal:".data (memoryEntries lines))
            (specFreeMemory (memoryEntries lines))
          else 0 := by
    unfold readMemoryStats
    simp only [hfile]
    rw [hfree, htotal]
    exact ⟨rfl, rfl, rfl⟩
  refine ⟨hstats.1, hstats.2.1, ?_, ?_⟩
  · intro h0
    rw [hstats.2.2, if_neg (by omega)]
  · intro hne hle
    rw [hstats.2.2, if_pos (by omega), sub64_of_le hle (keyValue_lt _ _)]

/-- Witness of C14: with `MemFree` first and `MemTotal` last, the total is `16000`, the free
memory is the `MemAvailable` value `8000`, and the used memory is `8000`. -/
theorem readMemoryStats_values_witness :
    (keyCount "MemTotal:".data (memoryEntries
        ["MemFree:          100 kB", "Buffers:           50 kB", "MemAvailable:    8000 kB",
          "MemTotal:       16000 kB"]) ≤ 1) ∧
    (readMemoryStats memoryFS (initial defaultConfig 1)).stats.total_memory_kb = 16000 ∧
    (readMemoryStats memoryFS (initial defaultConfig 1)).stats.free_memory_kb = 8000 ∧
    (readMemoryStats memoryFS (initial defaultConfig 1)).stats.used_memory_kb = 8000 := by
  have h := readMemoryStats_values memoryFS (initial defaultConfig 1)
    ["MemFree:          100 kB", "Buffers:           50 kB", "MemAvailable:    8000 kB",
      "MemTotal:       16000 kB"] rfl (by decide) (by decide) (by decide)
  refine ⟨by decide, ?_, ?_, ?_⟩
  · rw [h.1]
    decide
  · rw [h.2.1]
    decide
  · rw [h.2.2.2 (by decide) (by decide)]
    decide

/-- Counterexample to C14 as stated. With `MemTotal` `100` and `MemAvailable` `200` the total is
nonzero, but `used_memory_kb` is `2 ^ 64 − 100`, which is not `total − free = −100`. -/
theorem readMemoryStats_used_wraps_counterexample :
    (readMemoryStats inconsistentMemoryFS (initial defaultConfig 1)).stats.total_memory_kb = 100 ∧
    (readMemoryStats inconsistentMemoryFS (initial defaultConfig 1)).stats.free_memory_kb = 200 ∧
    (readMemoryStats inconsistentMemoryFS (initial defaultConfig 1)).stats.used_memory_kb
      = 18446744073709551516 ∧
    ((readMemoryStats inconsistentMemoryFS (initial defaultConfig 1)).stats.used_memory_kb : Int)
      ≠ (100 : Int) - 200 := by
  decide

/-- Claim C15 at its failing input. When `/proc/meminfo` cannot be opened, the total and the
used memory are both `0`, and `Display::printSystemStats` divides the one by the other without
a guard: the memory percent is not a number, not `0`. For every `SystemStats` with a total of
`0` the division by zero is evaluated, and gives a value that is not a number or is infinite. -/
theorem mem_percent_zero_total_not_guarded :
    (construct emptyFS defaultConfig 1).stats.total_memory_kb = 0 ∧
    (construct emptyFS defaultConfig 1).stats.used_memory_kb = 0 ∧
    mem_percent (construct emptyFS defaultConfig 1).stats = DoubleValue.nan ∧
    mem_percent (construct emptyFS defaultConfig 1).stats ≠ DoubleValue.finite 0 ∧
    (∀ stats : SystemStats, stats.total_memory_kb = 0 →
      mem_percent stats
        = if stats.used_memory_kb = 0 then DoubleValue.nan else DoubleValue.infinite false) := by
  have hgen : ∀ stats : SystemStats, stats.total_memory_kb = 0 →
      mem_percent stats
        = if stats.used_memory_kb = 0 then DoubleValue.nan else DoubleValue.infinite false := by
    intro stats h0
    unfold mem_percent doubleDiv
    rw [h0]
    by_cases hu : stats.used_memory_kb = 0
    · simp [hu, doubleScale]
    · have hq : ¬ ((stats.used_memory_kb : ℚ) = 0) := by exact_mod_cast hu
      have hneg : ¬ ((stats.used_memory_kb : ℚ) < 0) := not_lt.mpr (Nat.cast_nonneg _)
      simp [hu, hq, hneg, doubleScale]
  have ht : (construct emptyFS defaultConfig 1).stats.total_memory_kb = 0 := by decide
  have hu : (construct emptyFS defaultConfig 1).stats.used_memory_kb = 0 := by decide
  have hnan : mem_percent (construct emptyFS defaultConfig 1).stats = DoubleValue.nan := by
    rw [hgen _ ht, if_pos hu]
  refine ⟨ht, hu, hnan, ?_, hgen⟩
  rw [hnan]
  exact fun h => DoubleValue.noConfusion h

/-- Claim C16, as amended. The snapshot store a cycle leaves is rebuilt from the processes read
in that cycle: an entry found under a pid is a process of that cycle with that pid, a pid that
was not read has no entry, and every process read has one. In the next cycle every process,
in the list `readProcesses` builds and in the list `updateStats` publishes, is differenced
against the entry the preceding cycle stored under its pid, whatever the start tick of that
entry, and gets `0` when no process with its pid was read in the preceding cycle. -/
theorem snapshot_store_pairs_by_pid (fs1 fs2 : ProcFS) (s0 : SystemInfo) :
    (∀ pid stored, mapFind (updateStats fs1 s0).prev_processes pid = some stored →
      stored ∈ parsedInCycle fs1 s0 ∧ stored.pid = pid) ∧
    (∀ pid, (∀ q ∈ parsedInCycle fs1 s0, q.pid ≠ pid) →
      mapFind (updateStats fs1 s0).prev_processes pid = none) ∧
    (∀ q ∈ parsedInCycle fs1 s0,
      (mapFind (updateStats fs1 s0).prev_processes q.pid).isSome = true) ∧
    (∀ p ∈ parsedInCycle fs2 (updateStats fs1 s0),
      (∀ stored, mapFind (updateStats fs1 s0).prev_processes p.pid = some stored →
        p.cpu_percent
          = calculateProcessCpuPercent (updateStats fs2 (updateStats fs1 s0)) p stored) ∧
      ((∀ q ∈ parsedInCycle fs1 s0, q.pid ≠ p.pid) → p.cpu_percent = 0)) ∧
    (∀ p ∈ (updateStats fs2 (updateStats fs1 s0)).stats.processes,
      (∀ stored, mapFind (updateStats fs1 s0).prev_processes p.pid = some stored →
        p.cpu_percent
          = calculateProcessCpuPercent (updateStats fs2 (updateStats fs1 s0)) p stored) ∧
      ((∀ q ∈ parsedInCycle fs1 s0, q.pid ≠ p.pid) → p.cpu_percent = 0)) := by
  have hsome : ∀ pid stored, mapFind (updateStats fs1 s0).prev_processes pid = some stored →
      stored ∈ parsedInCycle fs1 s0 ∧ stored.pid = pid := by
    intro pid stored h
    rcases mapFind_rebuild_some _ [] pid stored h with h1 | h1
    · exact h1
    · cases h1
  have hnone : ∀ pid, (∀ q ∈ parsedInCycle fs1 s0, q.pid ≠ pid) →
      mapFind (updateStats fs1 s0).prev_processes pid = none := by
    intro pid h
    exact mapFind_rebuild_none _ [] pid h
  -- the end of the loop body: the pushed process carries the difference against the entry
  -- found under its pid
  have hpush : ∀ (t : SystemInfo) (e : ProcEntry) (pid : Int) (name : List Char)
      (fields : List (List Char)) (p : ProcessInfo),
      parseStatFields t fs2 e pid name fields = .pushed p →
      (∀ stored, mapFind t.prev_processes p.pid = some stored →
        p.cpu_percent = calculateProcessCpuPercent t p stored) ∧
      (mapFind t.prev_processes p.pid = none → p.cpu_percent = 0) := by
    intro t e pid name fields p h
    unfold parseStatFields at h
    split at h
    · cases h
    · split at h
      · cases h
      · split at h
        · cases h
        · split at h
          · cases h
          · split at h
            · cases h
            · injection h with h
              obtain ⟨proc, hproc⟩ : ∃ proc, assignCpuPercent t proc = p := ⟨_, h⟩
              clear h
              subst hproc
              have hfields := assignCpuPercent_fields t proc
              rw [assignCpuPercent_pid]
              constructor
              · intro stored hstored
                rcases assignCpuPercent_cpu t proc with ⟨previous, hfound, hcpu⟩ | ⟨hfound, _⟩
                · rw [hstored] at hfound
                  have hprev : stored = previous := Option.some.inj hfound
                  rw [hprev, hcpu]
                  exact calculateProcessCpuPercent_congr t t _ _ previous rfl rfl
                    hfields.2.2.1.symm hfields.2.2.2.1.symm
                · rw [hstored] at hfound
                  cases hfound
              · intro hmissing
                rcases assignCpuPercent_cpu t proc with ⟨previous, hfound, _⟩ | ⟨_, hcpu⟩
                · rw [hmissing] at hfound
                  cases hfound
                · exact hcpu
  have hread : ∀ p ∈ parsedInCycle fs2 (updateStats fs1 s0),
      (∀ stored, mapFind (updateStats fs1 s0).prev_processes p.pid = some stored →
        p.cpu_percent
          = calculateProcessCpuPercent (updateStats fs2 (updateStats fs1 s0)) p stored) ∧
      ((∀ q ∈ parsedInCycle fs1 s0, q.pid ≠ p.pid) → p.cpu_percent = 0) := by
    intro p hp
    obtain ⟨e, pid, name, fields, hparse⟩ := mem_parsedInCycle_parse hp
    have hcpu := hpush _ e pid name fields p hparse
    rw [(pre_reads_keep fs2 (updateStats fs1 s0)).1] at hcpu
    refine ⟨?_, fun h => hcpu.2 (hnone p.pid h)⟩
    intro stored hstored
    rw [hcpu.1 stored hstored]
    exact calculateProcessCpuPercent_congr _ _ p p stored rfl rfl rfl rfl
  refine ⟨hsome, hnone, ?_, hread, ?_⟩
  · intro q hq
    exact mapFind_rebuild_isSome _ [] q hq
  · intro p hp
    exact hread p (mem_updateStats hp)

/-- Witness of C16. The first cycle stores process `3` with `60 + 40` ticks; the next cycle
reads it with `100 + 50` ticks and differences it against that entry, which gives `50 / 3`.
A process with pid `1`, which the first cycle did not read, gets `0`; and a cycle that reads
no process leaves no entry under pid `3`. -/
theorem snapshot_store_pairs_by_pid_witness :
    (construct cycleOneFS defaultConfig 4).prev_processes.map
        (fun e => (e.1, e.2.start_time, e.2.utime, e.2.stime)) = [(3, 555, 60, 40)] ∧
    (updateStats cycleTwoFS (construct cycleOneFS defaultConfig 4)).stats.processes.map
        (fun p => (p.pid, p.start_time, p.utime, p.stime, p.cpu_percent))
      = [(3, 555, 100, 50, 50 / 3)] ∧
    (∀ p ∈ (updateStats cycleTwoFS (construct cycleOneFS defaultConfig 4)).stats.processes,
      ∀ stored, mapFind (construct cycleOneFS defaultConfig 4).prev_processes p.pid
          = some stored →
        p.cpu_percent = calculateProcessCpuPercent
          (updateStats cycleTwoFS (construct cycleOneFS defaultConfig 4)) p stored) ∧
    (∀ q ∈ parsedInCycle cycleOneFS (initial defaultConfig 4), q.pid ≠ 1) ∧
    (∀ p ∈ (updateStats threeProcessFS (construct cycleOneFS defaultConfig 4)).stats.processes,
      p.pid = 1 → p.cpu_percent = 0) ∧
    (∀ q ∈ parsedInCycle emptyFS (construct cycleOneFS defaultConfig 4), q.pid ≠ 3) ∧
    mapFind (updateStats emptyFS (construct cycleOneFS defaultConfig 4)).prev_processes 3
      = none := by
  have h := snapshot_store_pairs_by_pid cycleOneFS cycleTwoFS (initial defaultConfig 4)
  have h3 := snapshot_store_pairs_by_pid cycleOneFS threeProcessFS (initial defaultConfig 4)
  have h0 := snapshot_store_pairs_by_pid emptyFS emptyFS (construct cycleOneFS defaultConfig 4)
  have hone : ∀ q ∈ parsedInCycle cycleOneFS (initial defaultConfig 4), q.pid ≠ 1 := by decide
  have hnone : ∀ q ∈ parsedInCycle emptyFS (construct cycleOneFS defaultConfig 4), q.pid ≠ 3 := by
    decide
  refine ⟨by decide, by decide!, fun p hp => (h.2.2.2.2 p hp).1, hone, ?_, hnone,
    h0.2.1 3 hnone⟩
  intro p hp hpid
  apply (h3.2.2.2.2 p hp).2
  rw [hpid]
  exact hone

/-- Counterexample to C16 as stated. The entry of pid `3` was written for a process that
started at tick `555`; in the next cycle pid `3` belongs to a process that started at tick
`9999`, and it is differenced against that entry: its CPU percent is `50 / 3`, not `0`. -/
theorem snapshot_store_reused_pid_counterexample :
    (construct cycleOneFS defaultConfig 4).prev_processes.map
        (fun e => (e.1, e.2.name, e.2.start_time, e.2.utime, e.2.stime))
      = [(3, "gamma", 555, 60, 40)] ∧
    (updateStats reusedPidFS (construct cycleOneFS defaultConfig 4)).stats.processes.map
        (fun p => (p.pid, p.name, p.start_time, p.utime, p.stime))
      = [(3, "other", 9999, 100, 50)] ∧
    (updateStats reusedPidFS (construct cycleOneFS defaultConfig 4)).stats.processes.map
        (·.cpu_percent) = [50 / 3] ∧
    (50 / 3 : ℚ) ≠ 0 := by
  refine ⟨by decide, by decide, by decide!, by norm_num⟩

/-- Claim C17 at its failing input. With `reverse_sort` on, the comparator returns `true` for
every process compared with itself, whatever the sort key, and for two processes with equal
memory it returns `true` in both orders: it is neither irreflexive nor asymmetric. With
`reverse_sort` off it is irreflexive, asymmetric and transitive. -/
theorem sortCompare_reverse_not_strict :
    (∀ (config : MtopConfig) (a : ProcessInfo), config.reverse_sort = true →
      sortCompare config a a = true) ∧
    (sortCompare { defaultConfig with reverse_sort := true }
        (namedProcess 1 "alpha") (namedProcess 2 "beta") = true ∧
      sortCompare { defaultConfig with reverse_sort := true }
        (namedProcess 2 "beta") (namedProcess 1 "alpha") = true) ∧
    (∀ (config : MtopConfig) (a b c : ProcessInfo), config.reverse_sort = false →
      sortCompare config a a = false ∧
      (sortCompare config a b = true → sortCompare config b a = false) ∧
      (sortCompare config a b = true → sortCompare config b c = true →
        sortCompare config a c = true)) := by
  refine ⟨?_, ⟨by decide, by decide⟩, ?_⟩
  · intro config a hrev
    unfold sortCompare
    rw [if_pos hrev]
    cases hk : config.sort_by <;> simp [sortResult]
  · intro config a b c hrev
    unfold sortCompare
    simp only [hrev, Bool.false_eq_true, if_false]
    refine ⟨?_, sortResult_asymm _ a b, ?_⟩
    · cases hk : config.sort_by <;> simp [sortResult]
    · intro hab hbc
      cases hac : sortResult config.sort_by a c
      · have hcb := sortResult_asymm _ b c hbc
        have := sortResult_negtrans _ a c b hac hcb
        rw [this] at hab
        cases hab
      · rfl

end Mtop
